import Mathlib

/-!
Projected node count of a GraphQL query (package `node`)

A shallow embedding of `node/node.go`: the saturating arithmetic (`safeAdd`,
`safeMultiply`) and the walker (`selectionSetNode`, `interfaceFieldNode`,
`fieldNode`, `Calculate`), followed by the properties proved about them.

Go's `int` is modelled as a mathematical integer in the 64-bit two's-complement
range; every `+`, `-` and `*` of the source is followed by `wrapInt`, which is
what the machine does on overflow.  A Go panic (nil dereference after a failed
map lookup, a failed type assertion inside the cost declaration) is modelled by
`none`.
-/

namespace node

/-! ## Machine integers -/

/-- Width of Go's `int` on the modelled platform. -/
def intSize : Nat := 64

/-- The constant `maxInt = int(^uint(0) >> 1)`. -/
def maxInt : Int := 2 ^ (intSize - 1) - 1

/-- The least `int`. -/
def minInt : Int := -(2 ^ (intSize - 1))

/-- Two's-complement reduction of an exact result to the `int` range. -/
def wrapInt (x : Int) : Int :=
  (x + 2 ^ (intSize - 1)) % 2 ^ intSize - 2 ^ (intSize - 1)

/-- The value is representable as an `int`. -/
def InRange (x : Int) : Prop := minInt ≤ x ∧ x ≤ maxInt

instance (x : Int) : Decidable (InRange x) := by
  unfold InRange; exact inferInstance

/-! ## Saturating arithmetic (`node.go`, lines 78-130) -/

/-- The function `safeAdd` of the source. -/
def safeAdd (a b : Int) : Int :=
  if a < 0 then
    if b < 0 then 1 else b
  else if b < 0 then a
  else
    let c := wrapInt (a + b)
    if c < a then maxInt else c

/-- The function `safeMultiply` of the source. -/
def safeMultiply (a b : Int) : Int :=
  let a := if a = 0 then 1 else a
  if a < 0 then
    if b ≤ 0 then 0 else b
  else if b ≤ 0 then a
  else wrapInt (a * b)

/-! ## Data model: the parts of `ast` and `graphql` the walker reads -/

/-- The kinds of type definition (`ast.DefinitionKind`). -/
inductive DefinitionKind where
  | Scalar | Object | Interface | Union | Enum | InputObject
  deriving DecidableEq, Repr

/-- A type definition of the schema (`ast.Definition`): kind and name. -/
structure Definition where
  Kind : DefinitionKind
  Name : String
  deriving DecidableEq, Repr

/-- A runtime value bound to an argument or a variable (`interface{}`). -/
inductive RuntimeValue where
  | int64 (n : Int)
  | string (s : String)
  | boolean (b : Bool)
  | null
  deriving DecidableEq, Repr

/-- A resolved argument map, `map[string]interface{}`, as an association list. -/
abbrev ArgMap := List (String × RuntimeValue)

/-- An argument value as written in the query (`ast.Value`). -/
inductive Value where
  | Variable (name : String)
  | IntValue (n : Int)
  | StringValue (s : String)
  | BooleanValue (b : Bool)
  | NullValue
  deriving DecidableEq, Repr

/-- A declared argument of a field with its optional default
(`ast.ArgumentDefinition`). -/
structure ArgumentDefinition where
  Name : String
  DefaultValue : Option Value
  deriving DecidableEq, Repr

/-- The non-recursive part of a field selection (`ast.Field`): its name, its
arguments, the declared return type's name (`Definition.Type.Name()`), the
declared arguments (`Definition.Arguments`) and the type it is selected on
(`ObjectDefinition`). -/
structure FieldInfo where
  Alias : String
  Name : String
  Arguments : List (String × Value)
  TypeName : String
  ArgumentDefinitions : List ArgumentDefinition
  ObjectDefinition : Definition
  deriving DecidableEq, Repr

/-- A selection (`ast.Selection`).  A fragment spread carries the selection
set of the fragment definition it refers to (`s.Definition.SelectionSet`). -/
inductive Selection where
  | Field (f : FieldInfo) (SelectionSet : List Selection)
  | FragmentSpread (Name : String) (DefinitionSelectionSet : List Selection)
  | InlineFragment (TypeCondition : String) (SelectionSet : List Selection)

/-- A selection set (`ast.SelectionSet`). -/
abbrev SelectionSet := List Selection

/-- The walker (`nodeWalker`): the cost declaration `es.Complexity`, the
schema's `Types` map and `GetPossibleTypes`, and the variable bindings.
The cost declaration returns `(cost, handled)`, or `none` when it panics. -/
structure nodeWalker where
  Complexity : String → String → Int → ArgMap → Option (Int × Bool)
  Types : String → Option Definition
  PossibleTypes : String → List Definition
  vars : ArgMap

/-- Evaluation of a query value under the variable bindings
(`ast.Value.Value`), for the scalar kinds modelled here. -/
def Value.eval (vars : ArgMap) : Value → Option RuntimeValue
  | .Variable name => vars.lookup name
  | .IntValue n => some (.int64 n)
  | .StringValue s => some (.string s)
  | .BooleanValue b => some (.boolean b)
  | .NullValue => some .null

/-- The library function `ast.Field.ArgumentMap` (`arg2map`): for each declared
argument, the value given in the query, else the declared default; arguments
without a value are left out. -/
def ArgumentMap (f : FieldInfo) (vars : ArgMap) : ArgMap :=
  f.ArgumentDefinitions.filterMap fun argDef =>
    match (f.Arguments.lookup argDef.Name).bind (Value.eval vars) with
    | some v => some (argDef.Name, v)
    | none =>
      match argDef.DefaultValue.bind (Value.eval vars) with
      | some v => some (argDef.Name, v)
      | none => none

/-! ## The walker (`node.go`, lines 8-76) -/

/-- The method `fieldNode` of the source. -/
def fieldNode (nw : nodeWalker) (object field : String) (childNode : Int)
    (args : ArgMap) : Option Int :=
  match nw.Complexity object field childNode args with
  | none => none
  | some (customComplexity, true) =>
    some (safeMultiply (wrapInt (customComplexity - childNode)) childNode)
  | some (_, false) => some childNode

/-- The loop of `interfaceFieldNode` over the implementors, carrying `maxNode`. -/
def interfaceFieldLoop (nw : nodeWalker) (field : String) (childNode : Int)
    (args : ArgMap) : Int → List Definition → Option Int
  | maxNode, [] => some maxNode
  | maxNode, t :: rest =>
    match fieldNode nw t.Name field childNode args with
    | none => none
    | some fieldNode =>
      interfaceFieldLoop nw field childNode args
        (if fieldNode > maxNode then fieldNode else maxNode) rest

/-- The method `interfaceFieldNode` of the source. -/
def interfaceFieldNode (nw : nodeWalker) (definition : Definition) (field : String)
    (childNode : Int) (args : ArgMap) : Option Int :=
  interfaceFieldLoop nw field childNode args 0 (nw.PossibleTypes definition.Name)

mutual
/-- The `for` loop of `selectionSetNode`, carrying the running total `node`. -/
def selectionSetLoop (nw : nodeWalker) (node : Int) : List Selection → Option Int
  | [] => some node
  | s :: rest =>
    match selectionNode nw s with
    | none => none
    | some n => selectionSetLoop nw (safeAdd node n) rest
/-- One iteration's `switch`: the amount added to `node` for one selection.
A recursive call `nw.selectionSetNode(ss)` is the loop started at `node = 0`. -/
def selectionNode (nw : nodeWalker) : Selection → Option Int
  | .Field f ss =>
    match nw.Types f.TypeName with
    | none => none
    | some fieldDefinition =>
      let childNode : Option Int :=
        match fieldDefinition.Kind with
        | .Object | .Interface | .Union => selectionSetLoop nw 0 ss
        | _ => some 0
      match childNode with
      | none => none
      | some childNode =>
        let args := ArgumentMap f nw.vars
        if f.ObjectDefinition.Kind = .Interface then
          interfaceFieldNode nw f.ObjectDefinition f.Name childNode args
        else
          fieldNode nw f.ObjectDefinition.Name f.Name childNode args
  | .FragmentSpread _ ss => selectionSetLoop nw 0 ss
  | .InlineFragment _ ss => selectionSetLoop nw 0 ss
end

/-- The method `selectionSetNode` of the source: `var node int` is zero when
the loop starts. -/
def selectionSetNode (nw : nodeWalker) (selectionSet : List Selection) : Option Int :=
  selectionSetLoop nw 0 selectionSet

/-- The entry point `Calculate`: a walker over the executable schema, run on
the operation's selection set. -/
def Calculate (nw : nodeWalker) (operationSelectionSet : List Selection) : Option Int :=
  selectionSetNode nw operationSelectionSet

/-! ## Well-formed input -/

mutual
/-- Every field of the selection set, at any depth, has a return type that the
schema defines. -/
def typesDefinedSet (nw : nodeWalker) : List Selection → Bool
  | [] => true
  | s :: rest => typesDefined nw s && typesDefinedSet nw rest
/-- Every field of the selection, at any depth, has a return type that the
schema defines. -/
def typesDefined (nw : nodeWalker) : Selection → Bool
  | .Field f ss => (nw.Types f.TypeName).isSome && typesDefinedSet nw ss
  | .FragmentSpread _ ss => typesDefinedSet nw ss
  | .InlineFragment _ ss => typesDefinedSet nw ss
end

/-- The cost declaration never panics. -/
def ComplexityTotal (nw : nodeWalker) : Prop :=
  ∀ object field childNode args, ∃ v, nw.Complexity object field childNode args = some v

/-- The cost declaration declines every field: it returns `handled = false`
whatever it is asked. -/
def ComplexityDeclines (nw : nodeWalker) : Prop :=
  ∀ object field childNode args, ∃ v, nw.Complexity object field childNode args = some (v, false)

/-! ## Shapes of queries and the worst case over implementors -/

/-- The kind is one of those whose selection set the walker descends into. -/
def DefinitionKind.isComposite : DefinitionKind → Bool
  | .Object | .Interface | .Union => true
  | _ => false

/-- The cost declaration declines the field `f` when asked about it on the
type named `object` with child cost `childNode`. -/
def DeclinesField (nw : nodeWalker) (object : String) (f : FieldInfo) (childNode : Int) :
    Prop :=
  ∃ v, nw.Complexity object f.Name childNode (ArgumentMap f nw.vars) = some (v, false)

/-- The cost declaration handles the field `f` when asked about it on the type
named `object`, and returns `size + childCost` computed in machine integers. -/
def DeclaresSize (nw : nodeWalker) (size : Int) (object : String) (f : FieldInfo) : Prop :=
  ∀ childNode, nw.Complexity object f.Name childNode (ArgumentMap f nw.vars)
    = some (wrapInt (size + childNode), true)

mutual
/-- A selection set that holds scalar leaves with no declared cost only. -/
def ScalarOnly (nw : nodeWalker) : List Selection → Prop
  | [] => True
  | s :: rest => ScalarLeaf nw s ∧ ScalarOnly nw rest
/-- A scalar leaf with no declared cost: a field whose return type the schema
defines with a non-composite kind and that the cost declaration declines on
every type the walker asks about (the type the field is selected on or, when
that is an interface, each of its possible types); or a fragment spread or
inline fragment that holds such leaves only. -/
def ScalarLeaf (nw : nodeWalker) : Selection → Prop
  | .Field f _ =>
    (∃ d, nw.Types f.TypeName = some d ∧ d.Kind.isComposite = false) ∧
    (f.ObjectDefinition.Kind ≠ .Interface → DeclinesField nw f.ObjectDefinition.Name f 0) ∧
    (f.ObjectDefinition.Kind = .Interface →
      ∀ t ∈ nw.PossibleTypes f.ObjectDefinition.Name, DeclinesField nw t.Name f 0)
  | .FragmentSpread _ ss => ScalarOnly nw ss
  | .InlineFragment _ ss => ScalarOnly nw ss
end

/-- A list field of page size `size`: the return type is composite and the
cost declaration returns `size + childCost` on every type the walker asks
about: the type the field is selected on or, when that is an interface, each
of its possible types, of which there is at least one. -/
def ListField (nw : nodeWalker) (size : Int) (f : FieldInfo) : Prop :=
  (∃ d, nw.Types f.TypeName = some d ∧ d.Kind.isComposite = true) ∧
  (f.ObjectDefinition.Kind ≠ .Interface → DeclaresSize nw size f.ObjectDefinition.Name f) ∧
  (f.ObjectDefinition.Kind = .Interface →
    nw.PossibleTypes f.ObjectDefinition.Name ≠ [] ∧
    ∀ t ∈ nw.PossibleTypes f.ObjectDefinition.Name, DeclaresSize nw size t.Name f)

/-- A chain of nested list fields with the given page sizes, outermost first,
whose innermost selection set holds scalar leaves only. -/
inductive ListChain (nw : nodeWalker) : List Int → List Selection → Prop where
  | innermost (size : Int) (f : FieldInfo) (ss : List Selection) :
      ListField nw size f → (∀ s ∈ ss, ScalarLeaf nw s) →
      ListChain nw [size] [.Field f ss]
  | nested (size : Int) (sizes : List Int) (f : FieldInfo) (ss : List Selection) :
      ListField nw size f → ListChain nw sizes ss →
      ListChain nw (size :: sizes) [.Field f ss]

/-- The worst case in the words of the specification: the maximum of the given
costs, defaulting to `0`. -/
def maxOrZero (costs : List Int) : Int :=
  costs.foldr max 0

/-! ## The fixture of `node_test.go` -/

namespace test

/-- The types of the test schema, with the built-in scalars it uses. -/
def schemaTypes : String → Option Definition
  | "NameInterface" => some ⟨.Interface, "NameInterface"⟩
  | "Item" => some ⟨.Object, "Item"⟩
  | "ExpensiveItem" => some ⟨.Object, "ExpensiveItem"⟩
  | "Named" => some ⟨.Object, "Named"⟩
  | "NameUnion" => some ⟨.Union, "NameUnion"⟩
  | "Query" => some ⟨.Object, "Query"⟩
  | "String" => some ⟨.Scalar, "String"⟩
  | "Int" => some ⟨.Scalar, "Int"⟩
  | _ => none

/-- The possible types of the abstract types of the test schema. -/
def schemaPossibleTypes : String → List Definition
  | "NameInterface" => [⟨.Object, "Item"⟩, ⟨.Object, "ExpensiveItem"⟩]
  | "NameUnion" => [⟨.Object, "Item"⟩, ⟨.Object, "Named"⟩]
  | "Item" => [⟨.Object, "Item"⟩]
  | "ExpensiveItem" => [⟨.Object, "ExpensiveItem"⟩]
  | "Named" => [⟨.Object, "Named"⟩]
  | "Query" => [⟨.Object, "Query"⟩]
  | _ => []

/-- The mock's `ComplexityFunc`; the type assertion `args["size"].(int64)`
panics when the argument is absent or not an `int64`. -/
def ComplexityFunc (typeName field : String) (childComplexity : Int)
    (args : ArgMap) : Option (Int × Bool) :=
  let key := typeName ++ "." ++ field
  if key = "ExpensiveItem.name" then some (5, true)
  else if key = "Query.list" ∨ key = "Item.list" then
    match args.lookup "size" with
    | some (.int64 size) => some (wrapInt (size + childComplexity), true)
    | _ => none
  else if key = "Query.customObject" then some (1, true)
  else some (0, false)

/-- The walker that `calculate` of the test hands to `Calculate`
(`vars` is `nil`). -/
def walker : nodeWalker :=
  { Complexity := ComplexityFunc
    Types := schemaTypes
    PossibleTypes := schemaPossibleTypes
    vars := [] }

/-- The field `scalar: String` selected on the object type `owner`. -/
def scalarField (owner : String) : Selection :=
  .Field
    { Alias := "scalar", Name := "scalar", Arguments := [], TypeName := "String",
      ArgumentDefinitions := [], ObjectDefinition := ⟨.Object, owner⟩ } []

/-- The field `name: String` selected on the interface `NameInterface`. -/
def interfaceNameField : Selection :=
  .Field
    { Alias := "name", Name := "name", Arguments := [], TypeName := "String",
      ArgumentDefinitions := [], ObjectDefinition := ⟨.Interface, "NameInterface"⟩ } []

/-- The declaration of `list(size: Int = 10): [Item]` on `owner`, as selected
under `fieldAlias` with the arguments written in the query. -/
def listInfo (owner fieldAlias : String) (arguments : List (String × Value)) : FieldInfo :=
  { Alias := fieldAlias, Name := "list", Arguments := arguments, TypeName := "Item",
    ArgumentDefinitions := [⟨"size", some (.IntValue 10)⟩],
    ObjectDefinition := ⟨.Object, owner⟩ }

/-- The selection `fieldAlias: list(size: n) { ... }` on `owner`. -/
def sizedList (owner fieldAlias : String) (n : Int) (selectionSet : List Selection) :
    Selection :=
  .Field (listInfo owner fieldAlias [("size", .IntValue n)]) selectionSet

/-- The test's `calculate`, on a parsed and validated operation. -/
def calculate (operationSelectionSet : List Selection) : Option Int :=
  Calculate walker operationSelectionSet

/-- The selection `a: list(size: 2) { list(size: 5) { list(size: 15) { scalar } } }`. -/
def queryA : Selection :=
  sizedList "Query" "a" 2
    [sizedList "Item" "list" 5 [sizedList "Item" "list" 15 [scalarField "Item"]]]

/-- The selection `b: list(size: 6) { list(size: 3) { scalar } }`. -/
def queryB : Selection :=
  sizedList "Query" "b" 6 [sizedList "Item" "list" 3 [scalarField "Item"]]

end test

/-! ## A schema with a list field on an interface -/

namespace nodes

/-- The test schema extended with `interface Node { id: String
list(size: Int = 10): [Item] }` and `Query.nodes(size: Int = 10): [Node]`. -/
def schemaTypes (name : String) : Option Definition :=
  if name = "Node" then some ⟨.Interface, "Node"⟩ else test.schemaTypes name

/-- Possible types when `Item` implements `Node`. -/
def implementedBy (name : String) : List Definition :=
  if name = "Node" then [⟨.Object, "Item"⟩] else test.schemaPossibleTypes name

/-- Possible types when no type implements `Node`. -/
def notImplemented (name : String) : List Definition :=
  if name = "Node" then [] else test.schemaPossibleTypes name

/-- A cost declaration that returns `size + childComplexity` for the fields
`list` and `nodes` on whatever type it is asked about, and declines the rest. -/
def byFieldName (_typeName field : String) (childComplexity : Int) (args : ArgMap) :
    Option (Int × Bool) :=
  if field = "list" ∨ field = "nodes" then
    match args.lookup "size" with
    | some (.int64 size) => some (wrapInt (size + childComplexity), true)
    | _ => none
  else some (0, false)

/-- A cost declaration that returns `size + childComplexity` for `Query.nodes`
and `Node.list`, the types the fields are selected on in the query, and
declines the rest. -/
def byWrittenType (typeName field : String) (childComplexity : Int) (args : ArgMap) :
    Option (Int × Bool) :=
  let key := typeName ++ "." ++ field
  if key = "Query.nodes" ∨ key = "Node.list" then
    match args.lookup "size" with
    | some (.int64 size) => some (wrapInt (size + childComplexity), true)
    | _ => none
  else some (0, false)

/-- The field `nodes(size: n)` selected on `Query`. -/
def nodesInfo (n : Int) : FieldInfo :=
  { Alias := "nodes", Name := "nodes", Arguments := [("size", .IntValue n)],
    TypeName := "Node", ArgumentDefinitions := [⟨"size", some (.IntValue 10)⟩],
    ObjectDefinition := ⟨.Object, "Query"⟩ }

/-- The field `list(size: n)` selected on the interface `Node`. -/
def listInfo (n : Int) : FieldInfo :=
  { Alias := "list", Name := "list", Arguments := [("size", .IntValue n)],
    TypeName := "Item", ArgumentDefinitions := [⟨"size", some (.IntValue 10)⟩],
    ObjectDefinition := ⟨.Interface, "Node"⟩ }

/-- The field `id: String` selected on the interface `Node`. -/
def idField : Selection :=
  .Field
    { Alias := "id", Name := "id", Arguments := [], TypeName := "String",
      ArgumentDefinitions := [], ObjectDefinition := ⟨.Interface, "Node"⟩ } []

/-- The query `{ nodes(size: a) { list(size: b) { scalar } } }`. -/
def chainQuery (a b : Int) : List Selection :=
  [.Field (nodesInfo a) [.Field (listInfo b) [test.scalarField "Item"]]]

/-- The query `{ nodes(size: n) { id ... on Node { id } } }`. -/
def leafQuery (n : Int) : List Selection :=
  [.Field (nodesInfo n) [idField, .InlineFragment "Node" [idField]]]

/-- No type implements `Node`; the declaration goes by field name. -/
def walkerNotImplemented : nodeWalker :=
  { Complexity := byFieldName, Types := schemaTypes, PossibleTypes := notImplemented,
    vars := [] }

/-- The type `Item` implements `Node`; the declaration names `Node.list`. -/
def walkerByWrittenType : nodeWalker :=
  { Complexity := byWrittenType, Types := schemaTypes, PossibleTypes := implementedBy,
    vars := [] }

/-- The type `Item` implements `Node`; the declaration goes by field name. -/
def walkerImplemented : nodeWalker :=
  { Complexity := byFieldName, Types := schemaTypes, PossibleTypes := implementedBy,
    vars := [] }

end nodes

/-! ## Machine arithmetic -/

theorem maxInt_eq : maxInt = 9223372036854775807 := by decide

theorem minInt_eq : minInt = -9223372036854775808 := by decide

theorem wrapInt_eq (x : Int) :
    wrapInt x = (x + 9223372036854775808) % 18446744073709551616 - 9223372036854775808 := by
  simp [wrapInt, intSize]

theorem wrapInt_inRange (x : Int) : InRange (wrapInt x) := by
  unfold InRange
  rw [wrapInt_eq, maxInt_eq, minInt_eq]
  omega

theorem wrapInt_of_inRange {x : Int} (h : InRange x) : wrapInt x = x := by
  unfold InRange at h
  rw [maxInt_eq, minInt_eq] at h
  rw [wrapInt_eq]
  omega

/-- On a non-negative running total, `safeAdd` adds the positive part of the
other operand and clamps at `maxInt`. -/
theorem safeAdd_of_nonneg {a b : Int} (ha : 0 ≤ a) (ha' : a ≤ maxInt) (hb : InRange b) :
    safeAdd a b = min (a + max b 0) maxInt := by
  unfold InRange at hb
  rw [maxInt_eq, minInt_eq] at hb
  rw [maxInt_eq] at ha'
  unfold safeAdd
  simp only [wrapInt_eq, maxInt_eq]
  split_ifs <;> omega

theorem safeAdd_bounds {a b : Int} (ha : 0 ≤ a) (ha' : a ≤ maxInt) (hb : InRange b) :
    0 ≤ safeAdd a b ∧ safeAdd a b ≤ maxInt := by
  rw [safeAdd_of_nonneg ha ha' hb]
  rw [maxInt_eq] at *
  omega

theorem safeMultiply_inRange {a b : Int} (ha : InRange a) (hb : InRange b) :
    InRange (safeMultiply a b) := by
  unfold safeMultiply
  have h0 : InRange 0 := by decide
  have h1 : InRange 1 := by decide
  simp only
  split_ifs <;> first | assumption | exact wrapInt_inRange _

/-! ## Range invariants of the walker -/

theorem fieldNode_inRange {nw : nodeWalker} {object field : String} {childNode : Int}
    {args : ArgMap} {r : Int} (hc : InRange childNode)
    (h : fieldNode nw object field childNode args = some r) : InRange r := by
  unfold fieldNode at h
  split at h
  · exact absurd h (by simp)
  · injection h with h
    rw [← h]
    exact safeMultiply_inRange (wrapInt_inRange _) hc
  · injection h with h
    rw [← h]
    exact hc

theorem interfaceFieldLoop_inRange {nw : nodeWalker} {field : String} {childNode : Int}
    {args : ArgMap} (hc : InRange childNode) :
    ∀ (ts : List Definition) (maxNode r : Int), InRange maxNode →
      interfaceFieldLoop nw field childNode args maxNode ts = some r → InRange r := by
  intro ts
  induction ts with
  | nil =>
    intro maxNode r hm h
    simp only [interfaceFieldLoop] at h
    injection h with h
    rw [← h]
    exact hm
  | cons t rest ih =>
    intro maxNode r hm h
    simp only [interfaceFieldLoop] at h
    split at h
    · exact absurd h (by simp)
    · rename_i v hv
      refine ih _ r ?_ h
      split_ifs
      · exact fieldNode_inRange hc hv
      · exact hm

theorem interfaceFieldNode_inRange {nw : nodeWalker} {definition : Definition}
    {field : String} {childNode : Int} {args : ArgMap} {r : Int} (hc : InRange childNode)
    (h : interfaceFieldNode nw definition field childNode args = some r) : InRange r :=
  interfaceFieldLoop_inRange hc _ 0 r (by decide) h

theorem inRange_of_bounds {r : Int} (h : 0 ≤ r ∧ r ≤ maxInt) : InRange r := by
  unfold InRange
  rw [minInt_eq]
  omega

mutual
theorem selectionSetLoop_bounds (nw : nodeWalker) :
    ∀ (ss : List Selection) (node r : Int), 0 ≤ node → node ≤ maxInt →
      selectionSetLoop nw node ss = some r → 0 ≤ r ∧ r ≤ maxInt
  | [], node, r, h0, h1, h => by
    simp only [selectionSetLoop] at h
    injection h with h
    rw [← h]
    exact ⟨h0, h1⟩
  | s :: rest, node, r, h0, h1, h => by
    simp only [selectionSetLoop] at h
    split at h
    · exact absurd h (by simp)
    · rename_i n hn
      have hb := safeAdd_bounds h0 h1 (selectionNode_inRange nw s n hn)
      exact selectionSetLoop_bounds nw rest _ r hb.1 hb.2 h
theorem selectionNode_inRange (nw : nodeWalker) :
    ∀ (s : Selection) (r : Int), selectionNode nw s = some r → InRange r
  | .Field f ss, r, h => by
    simp only [selectionNode] at h
    split at h
    · exact absurd h (by simp)
    · rename_i fieldDefinition _
      split at h
      · exact absurd h (by simp)
      · rename_i childNode hchild
        have hc : InRange childNode := by
          split at hchild
          · exact inRange_of_bounds
              (selectionSetLoop_bounds nw ss 0 childNode le_rfl (by decide) hchild)
          · exact inRange_of_bounds
              (selectionSetLoop_bounds nw ss 0 childNode le_rfl (by decide) hchild)
          · exact inRange_of_bounds
              (selectionSetLoop_bounds nw ss 0 childNode le_rfl (by decide) hchild)
          · injection hchild with hchild
            rw [← hchild]
            decide
        split_ifs at h
        · exact interfaceFieldNode_inRange hc h
        · exact fieldNode_inRange hc h
  | .FragmentSpread _ ss, r, h => by
    simp only [selectionNode] at h
    exact inRange_of_bounds (selectionSetLoop_bounds nw ss 0 r le_rfl (by decide) h)
  | .InlineFragment _ ss, r, h => by
    simp only [selectionNode] at h
    exact inRange_of_bounds (selectionSetLoop_bounds nw ss 0 r le_rfl (by decide) h)
end

/-! ## Totality on well-formed input -/

theorem fieldNode_total {nw : nodeWalker} (hc : ComplexityTotal nw) (object field : String)
    (childNode : Int) (args : ArgMap) : ∃ r, fieldNode nw object field childNode args = some r := by
  obtain ⟨⟨v, handled⟩, hv⟩ := hc object field childNode args
  unfold fieldNode
  rw [hv]
  cases handled <;> exact ⟨_, rfl⟩

theorem interfaceFieldLoop_total {nw : nodeWalker} (hc : ComplexityTotal nw) (field : String)
    (childNode : Int) (args : ArgMap) :
    ∀ (ts : List Definition) (maxNode : Int),
      ∃ r, interfaceFieldLoop nw field childNode args maxNode ts = some r := by
  intro ts
  induction ts with
  | nil => intro maxNode; exact ⟨maxNode, rfl⟩
  | cons t rest ih =>
    intro maxNode
    obtain ⟨v, hv⟩ := fieldNode_total hc t.Name field childNode args
    simp only [interfaceFieldLoop, hv]
    exact ih _

mutual
theorem selectionSetLoop_total (nw : nodeWalker) (hc : ComplexityTotal nw) :
    ∀ (ss : List Selection) (node : Int), typesDefinedSet nw ss = true →
      ∃ r, selectionSetLoop nw node ss = some r
  | [], node, _ => ⟨node, rfl⟩
  | s :: rest, node, h => by
    simp only [typesDefinedSet, Bool.and_eq_true] at h
    obtain ⟨n, hn⟩ := selectionNode_total nw hc s h.1
    simp only [selectionSetLoop, hn]
    exact selectionSetLoop_total nw hc rest _ h.2
theorem selectionNode_total (nw : nodeWalker) (hc : ComplexityTotal nw) :
    ∀ (s : Selection), typesDefined nw s = true → ∃ r, selectionNode nw s = some r
  | .Field f ss, h => by
    simp only [typesDefined, Bool.and_eq_true, Option.isSome_iff_exists] at h
    obtain ⟨⟨fieldDefinition, hdef⟩, hss⟩ := h
    obtain ⟨child, hchild⟩ := selectionSetLoop_total nw hc ss 0 hss
    simp only [selectionNode, hdef, hchild]
    have key : ∀ c : Int, ∃ r,
        (if f.ObjectDefinition.Kind = DefinitionKind.Interface then
          interfaceFieldNode nw f.ObjectDefinition f.Name c (ArgumentMap f nw.vars)
        else fieldNode nw f.ObjectDefinition.Name f.Name c (ArgumentMap f nw.vars)) = some r := by
      intro c
      split_ifs
      · exact interfaceFieldLoop_total hc _ _ _ _ _
      · exact fieldNode_total hc _ _ _ _
    cases fieldDefinition.Kind <;> exact key _
  | .FragmentSpread _ ss, h => by
    simp only [typesDefined] at h
    simp only [selectionNode]
    exact selectionSetLoop_total nw hc ss 0 h
  | .InlineFragment _ ss, h => by
    simp only [typesDefined] at h
    simp only [selectionNode]
    exact selectionSetLoop_total nw hc ss 0 h
end

/-! ## The loop as a sum -/

theorem safeAdd_assoc_aux {node c r : Int} (h0 : 0 ≤ node) (h1 : node ≤ maxInt)
    (hc : InRange c) (hr0 : 0 ≤ r) (hr1 : r ≤ maxInt) :
    safeAdd (safeAdd node c) r = safeAdd node (safeAdd (safeAdd 0 c) r) := by
  have hz := safeAdd_bounds (a := 0) le_rfl (by decide) hc
  have hn := safeAdd_bounds h0 h1 hc
  have hr : InRange r := inRange_of_bounds ⟨hr0, hr1⟩
  have hzr := safeAdd_bounds hz.1 hz.2 hr
  rw [safeAdd_of_nonneg hn.1 hn.2 hr, safeAdd_of_nonneg h0 h1 (inRange_of_bounds hzr),
    safeAdd_of_nonneg hz.1 hz.2 hr, safeAdd_of_nonneg h0 h1 hc,
    safeAdd_of_nonneg le_rfl (by decide) hc]
  unfold InRange at hc
  rw [maxInt_eq, minInt_eq] at *
  omega

/-- Starting the loop at `node` is starting it at `0` and adding `node` to the
outcome. -/
theorem selectionSetLoop_eq_map (nw : nodeWalker) :
    ∀ (ss : List Selection) (node : Int), 0 ≤ node → node ≤ maxInt →
      selectionSetLoop nw node ss = (selectionSetLoop nw 0 ss).map (safeAdd node) := by
  intro ss
  induction ss with
  | nil =>
    intro node h0 h1
    simp only [selectionSetLoop, Option.map_some']
    rw [safeAdd_of_nonneg h0 h1 (by decide)]
    rw [maxInt_eq] at *
    simp only [Option.some.injEq]
    omega
  | cons s rest ih =>
    intro node h0 h1
    simp only [selectionSetLoop]
    cases hs : selectionNode nw s with
    | none => rfl
    | some c =>
      have hc := selectionNode_inRange nw s c hs
      have hz := safeAdd_bounds (a := 0) le_rfl (by decide) hc
      have hn := safeAdd_bounds h0 h1 hc
      simp only
      rw [ih _ hn.1 hn.2, ih _ hz.1 hz.2]
      cases hr : selectionSetLoop nw 0 rest with
      | none => rfl
      | some r =>
        have hrb := selectionSetLoop_bounds nw rest 0 r le_rfl (by decide) hr
        simp only [Option.map_some', Option.some.injEq]
        exact safeAdd_assoc_aux h0 h1 hc hrb.1 hrb.2

theorem selectionSetLoop_append (nw : nodeWalker) :
    ∀ (s1 s2 : List Selection) (node : Int),
      selectionSetLoop nw node (s1 ++ s2) =
        (selectionSetLoop nw node s1).bind (fun m => selectionSetLoop nw m s2) := by
  intro s1
  induction s1 with
  | nil => intro s2 node; simp [selectionSetLoop]
  | cons s rest ih =>
    intro s2 node
    simp only [List.cons_append, selectionSetLoop]
    cases selectionNode nw s with
    | none => rfl
    | some c => exact ih s2 _

theorem selectionSetNode_append (nw : nodeWalker) (s1 s2 : List Selection) :
    selectionSetNode nw (s1 ++ s2) =
      (selectionSetNode nw s1).bind
        (fun a => (selectionSetNode nw s2).map (fun b => safeAdd a b)) := by
  unfold selectionSetNode
  rw [selectionSetLoop_append]
  cases h : selectionSetLoop nw 0 s1 with
  | none => rfl
  | some a =>
    have hb := selectionSetLoop_bounds nw s1 0 a le_rfl (by decide) h
    simp only [Option.some_bind]
    exact selectionSetLoop_eq_map nw s2 a hb.1 hb.2

theorem selectionSetLoop_fragment (nw : nodeWalker) (s : Selection) (body : List Selection)
    (hs : selectionNode nw s = selectionSetLoop nw 0 body) (node : Int)
    (h0 : 0 ≤ node) (h1 : node ≤ maxInt) :
    selectionSetLoop nw node [s] = selectionSetLoop nw node body := by
  rw [selectionSetLoop_eq_map nw body node h0 h1]
  simp only [selectionSetLoop, hs]
  cases selectionSetLoop nw 0 body <;> rfl

theorem selectionSetNode_splice (nw : nodeWalker) (s : Selection) (body : List Selection)
    (hs : selectionNode nw s = selectionSetLoop nw 0 body) (p q : List Selection) :
    selectionSetNode nw (p ++ [s] ++ q) = selectionSetNode nw (p ++ body ++ q) := by
  unfold selectionSetNode
  rw [selectionSetLoop_append, selectionSetLoop_append, selectionSetLoop_append nw (p ++ body),
    selectionSetLoop_append nw p body]
  cases h : selectionSetLoop nw 0 p with
  | none => rfl
  | some a =>
    have hb := selectionSetLoop_bounds nw p 0 a le_rfl (by decide) h
    simp only [Option.some_bind]
    rw [selectionSetLoop_fragment nw s body hs a hb.1 hb.2]

/-! ## Chains of list fields -/

theorem fieldNode_of_declined {nw : nodeWalker} {object field : String} {childNode v : Int}
    {args : ArgMap} (h : nw.Complexity object field childNode args = some (v, false)) :
    fieldNode nw object field childNode args = some childNode := by
  simp only [fieldNode, h]

theorem interfaceFieldLoop_const (nw : nodeWalker) (field : String) (childNode : Int)
    (args : ArgMap) (v : Int) :
    ∀ (ts : List Definition) (maxNode : Int),
      (∀ t ∈ ts, fieldNode nw t.Name field childNode args = some v) →
      interfaceFieldLoop nw field childNode args maxNode ts =
        some (if ts = [] then maxNode else max maxNode v) := by
  intro ts
  induction ts with
  | nil => intro maxNode _; rfl
  | cons t rest ih =>
    intro maxNode h
    have hmax : (if v > maxNode then v else maxNode) = max maxNode v := by
      split_ifs <;> omega
    simp only [interfaceFieldLoop, h t (List.mem_cons_self _ _), hmax]
    rw [ih _ (fun u hu => h u (List.mem_cons_of_mem _ hu))]
    simp only [if_neg (List.cons_ne_nil t rest)]
    split_ifs <;> simp

theorem interfaceFieldNode_const (nw : nodeWalker) (definition : Definition) (field : String)
    (childNode : Int) (args : ArgMap) (v : Int) (hv : 0 ≤ v)
    (hne : v ≠ 0 → nw.PossibleTypes definition.Name ≠ [])
    (h : ∀ t ∈ nw.PossibleTypes definition.Name,
      fieldNode nw t.Name field childNode args = some v) :
    interfaceFieldNode nw definition field childNode args = some v := by
  unfold interfaceFieldNode
  rw [interfaceFieldLoop_const nw field childNode args v _ 0 h]
  split_ifs with hnil
  · by_cases hv0 : v = 0
    · rw [hv0]
    · exact absurd hnil (hne hv0)
  · rw [max_eq_right hv]

mutual
theorem scalarOnly_cost (nw : nodeWalker) :
    ∀ ss : List Selection, ScalarOnly nw ss → selectionSetLoop nw 0 ss = some 0
  | [], _ => rfl
  | s :: rest, h => by
    simp only [ScalarOnly] at h
    have h00 : safeAdd 0 0 = 0 := by decide
    simp only [selectionSetLoop, scalarLeaf_cost nw s h.1, h00]
    exact scalarOnly_cost nw rest h.2
theorem scalarLeaf_cost (nw : nodeWalker) :
    ∀ s : Selection, ScalarLeaf nw s → selectionNode nw s = some 0
  | .Field f ss, h => by
    simp only [ScalarLeaf] at h
    obtain ⟨⟨d, hd, hk⟩, hobj, hint⟩ := h
    have key : (if f.ObjectDefinition.Kind = DefinitionKind.Interface then
          interfaceFieldNode nw f.ObjectDefinition f.Name 0 (ArgumentMap f nw.vars)
        else fieldNode nw f.ObjectDefinition.Name f.Name 0 (ArgumentMap f nw.vars)) = some 0 := by
      split_ifs with hi
      · refine interfaceFieldNode_const nw _ _ 0 _ 0 le_rfl (fun h0 => absurd rfl h0) ?_
        intro t ht
        obtain ⟨v, hv⟩ := hint hi t ht
        exact fieldNode_of_declined hv
      · obtain ⟨v, hv⟩ := hobj hi
        exact fieldNode_of_declined hv
    simp only [selectionNode, hd]
    cases hkind : d.Kind <;> rw [hkind] at hk <;>
      first
      | exact absurd hk (by decide)
      | exact key
  | .FragmentSpread _ ss, h => by
    simp only [ScalarLeaf] at h
    simp only [selectionNode]
    exact scalarOnly_cost nw ss h
  | .InlineFragment _ ss, h => by
    simp only [ScalarLeaf] at h
    simp only [selectionNode]
    exact scalarOnly_cost nw ss h
end

theorem scalarLeaves_cost (nw : nodeWalker) :
    ∀ ss : List Selection, (∀ s ∈ ss, ScalarLeaf nw s) → selectionSetLoop nw 0 ss = some 0 := by
  intro ss
  induction ss with
  | nil => intro _; rfl
  | cons s rest ih =>
    intro h
    simp only [selectionSetLoop, scalarLeaf_cost nw s (h s (List.mem_cons_self _ _))]
    have h00 : safeAdd 0 0 = 0 := by decide
    rw [h00]
    exact ih (fun t ht => h t (List.mem_cons_of_mem _ ht))

theorem wrapInt_add_sub {size : Int} (hs : InRange size) (c : Int) :
    wrapInt (wrapInt (size + c) - c) = size := by
  unfold InRange at hs
  rw [maxInt_eq, minInt_eq] at hs
  simp only [wrapInt_eq]
  omega

/-- The contribution of a list field whose nested selection set costs `c`. -/
theorem listField_cost (nw : nodeWalker) (size : Int) (f : FieldInfo) (ss : List Selection)
    (c : Int) (hf : ListField nw size f) (hs : InRange size)
    (hc : selectionSetLoop nw 0 ss = some c) (hnn : 0 ≤ safeMultiply size c) :
    selectionNode nw (.Field f ss) = some (safeMultiply size c) := by
  obtain ⟨⟨d, hd, hk⟩, hobj, hint⟩ := hf
  have hfield : ∀ object, DeclaresSize nw size object f →
      fieldNode nw object f.Name c (ArgumentMap f nw.vars) = some (safeMultiply size c) := by
    intro object hdecl
    simp only [fieldNode, hdecl c, wrapInt_add_sub hs c]
  have key : (if f.ObjectDefinition.Kind = DefinitionKind.Interface then
        interfaceFieldNode nw f.ObjectDefinition f.Name c (ArgumentMap f nw.vars)
      else fieldNode nw f.ObjectDefinition.Name f.Name c (ArgumentMap f nw.vars))
        = some (safeMultiply size c) := by
    split_ifs with hi
    · exact interfaceFieldNode_const nw _ _ c _ _ hnn (fun _ => (hint hi).1)
        (fun t ht => hfield t.Name ((hint hi).2 t ht))
    · exact hfield _ (hobj hi)
  simp only [selectionNode, hd]
  cases hkind : d.Kind <;> rw [hkind] at hk <;>
    first
    | exact absurd hk (by decide)
    | simp only [hc, key]

theorem safeAdd_zero_left {b : Int} (h0 : 0 ≤ b) (h1 : b ≤ maxInt) : safeAdd 0 b = b := by
  rw [safeAdd_of_nonneg le_rfl (by decide) (inRange_of_bounds ⟨h0, h1⟩)]
  rw [maxInt_eq] at *
  omega

theorem selectionSetLoop_single (nw : nodeWalker) (s : Selection) (v : Int)
    (h : selectionNode nw s = some v) (h0 : 0 ≤ v) (h1 : v ≤ maxInt) :
    selectionSetLoop nw 0 [s] = some v := by
  simp only [selectionSetLoop, h, safeAdd_zero_left h0 h1]

theorem list_prod_pos : ∀ sizes : List Int, (∀ n ∈ sizes, 0 < n) → 0 < sizes.prod := by
  intro sizes
  induction sizes with
  | nil => intro _; simp
  | cons n rest ih =>
    intro h
    rw [List.prod_cons]
    exact mul_pos (h n (List.mem_cons_self _ _)) (ih (fun m hm => h m (List.mem_cons_of_mem _ hm)))

theorem safeMultiply_of_pos {a b : Int} (ha : 0 < a) (hb : 0 < b) (h : a * b ≤ maxInt) :
    safeMultiply a b = a * b := by
  have hab : 0 < a * b := mul_pos ha hb
  unfold safeMultiply
  have hne : a ≠ 0 := by omega
  simp only [if_neg hne, if_neg (not_lt.mpr ha.le), if_neg (not_le.mpr hb)]
  exact wrapInt_of_inRange (inRange_of_bounds ⟨hab.le, h⟩)

theorem listChain_cost (nw : nodeWalker) (sizes : List Int) (ss : List Selection)
    (h : ListChain nw sizes ss) :
    (∀ n ∈ sizes, 0 < n) → sizes.prod ≤ maxInt →
      selectionSetLoop nw 0 ss = some sizes.prod := by
  induction h with
  | innermost size f body hf hleaf =>
    intro hpos hprod
    have hsz : 0 < size := hpos size (List.mem_singleton_self _)
    simp only [List.prod_cons, List.prod_nil, mul_one] at hprod ⊢
    have hm : safeMultiply size 0 = size := by
      unfold safeMultiply
      have hne : size ≠ 0 := by omega
      simp [hne, hsz.le]
    have hcost := listField_cost nw size f body 0 hf (inRange_of_bounds ⟨hsz.le, hprod⟩)
      (scalarLeaves_cost nw body hleaf) (by rw [hm]; exact hsz.le)
    rw [hm] at hcost
    exact selectionSetLoop_single nw _ size hcost hsz.le hprod
  | nested size rest f body hf _ ih =>
    intro hpos hprod
    have hsz : 0 < size := hpos size (List.mem_cons_self _ _)
    have hrest : ∀ n ∈ rest, 0 < n := fun n hn => hpos n (List.mem_cons_of_mem _ hn)
    have hp : 0 < rest.prod := list_prod_pos rest hrest
    rw [List.prod_cons] at hprod ⊢
    have hle1 : rest.prod ≤ size * rest.prod := le_mul_of_one_le_left hp.le hsz
    have hle2 : size ≤ size * rest.prod := le_mul_of_one_le_right hsz.le hp
    have hcost := listField_cost nw size f body rest.prod hf
      (inRange_of_bounds ⟨hsz.le, hle2.trans hprod⟩) (ih hrest (hle1.trans hprod))
      (by rw [safeMultiply_of_pos hsz hp hprod]; exact (mul_pos hsz hp).le)
    rw [safeMultiply_of_pos hsz hp hprod] at hcost
    exact selectionSetLoop_single nw _ _ hcost (mul_pos hsz hp).le hprod

theorem test_listField (owner fieldAlias : String) (n : Int)
    (ho : owner = "Query" ∨ owner = "Item") :
    ListField test.walker n (test.listInfo owner fieldAlias [("size", .IntValue n)]) := by
  refine ⟨⟨⟨.Object, "Item"⟩, rfl, rfl⟩, ?_, (fun h => by cases h)⟩
  intro _ c
  rcases ho with rfl | rfl <;> rfl

theorem test_scalarLeaf (owner : String) (ho : owner = "Query" ∨ owner = "Item") :
    ∀ s ∈ [test.scalarField owner], ScalarLeaf test.walker s := by
  intro s hs
  rw [List.mem_singleton] at hs
  subst hs
  simp only [test.scalarField, ScalarLeaf]
  refine ⟨⟨⟨.Scalar, "String"⟩, rfl, rfl⟩, ?_, (fun h => by cases h)⟩
  intro _
  refine ⟨0, ?_⟩
  rcases ho with rfl | rfl <;> rfl

theorem nodes_scalarLeaf (nw : nodeWalker) (ht : nw.Types = nodes.schemaTypes)
    (hc : nw.Complexity = nodes.byFieldName ∨ nw.Complexity = nodes.byWrittenType) :
    ∀ s ∈ [test.scalarField "Item"], ScalarLeaf nw s := by
  intro s hs
  rw [List.mem_singleton] at hs
  subst hs
  simp only [test.scalarField, ScalarLeaf, DeclinesField, ht]
  refine ⟨⟨⟨.Scalar, "String"⟩, rfl, rfl⟩, ?_, (fun h => by cases h)⟩
  intro _
  refine ⟨0, ?_⟩
  rcases hc with hc | hc <;> rw [hc] <;> rfl

theorem nodes_idLeaf : ScalarLeaf nodes.walkerImplemented nodes.idField := by
  simp only [nodes.idField, ScalarLeaf, DeclinesField]
  refine ⟨⟨⟨.Scalar, "String"⟩, rfl, rfl⟩, (fun h => absurd rfl h), ?_⟩
  intro _ t ht
  have ht' : t = ⟨.Object, "Item"⟩ := by
    simpa [nodes.walkerImplemented, nodes.implementedBy] using ht
  subst ht'
  exact ⟨0, rfl⟩

theorem nodes_leaves :
    ∀ s ∈ [nodes.idField, .InlineFragment "Node" [nodes.idField]],
      ScalarLeaf nodes.walkerImplemented s := by
  intro s hs
  simp only [List.mem_cons, List.mem_singleton, List.not_mem_nil, or_false] at hs
  rcases hs with rfl | rfl
  · exact nodes_idLeaf
  · simp only [ScalarLeaf, ScalarOnly, and_true]
    exact nodes_idLeaf

theorem nodes_nodesField (n : Int) :
    ListField nodes.walkerImplemented n (nodes.nodesInfo n) := by
  refine ⟨⟨⟨.Interface, "Node"⟩, rfl, rfl⟩, ?_, (fun h => by cases h)⟩
  intro _ c
  rfl

theorem nodes_listField (n : Int) :
    ListField nodes.walkerImplemented n (nodes.listInfo n) := by
  refine ⟨⟨⟨.Object, "Item"⟩, rfl, rfl⟩, (fun h => absurd rfl h), ?_⟩
  intro _
  have hp : nodes.walkerImplemented.PossibleTypes (nodes.listInfo n).ObjectDefinition.Name
      = [⟨.Object, "Item"⟩] := rfl
  rw [hp]
  refine ⟨List.cons_ne_nil _ _, ?_⟩
  intro t ht
  rw [List.mem_singleton] at ht
  subst ht
  intro c
  rfl

/-! ## The worst case over implementors -/

theorem interfaceFieldLoop_eq (nw : nodeWalker) (field : String) (childNode : Int)
    (args : ArgMap) :
    ∀ (ts : List Definition) (vs : List Int) (maxNode : Int), 0 ≤ maxNode →
      ts.map (fun t => fieldNode nw t.Name field childNode args) = vs.map some →
      interfaceFieldLoop nw field childNode args maxNode ts =
        some (max maxNode (maxOrZero vs)) := by
  intro ts
  induction ts with
  | nil =>
    intro vs maxNode hm h
    cases vs with
    | nil => simp [interfaceFieldLoop, maxOrZero, hm]
    | cons v vs => simp at h
  | cons t rest ih =>
    intro vs maxNode hm h
    cases vs with
    | nil => simp at h
    | cons v vs =>
      simp only [List.map_cons, List.cons.injEq] at h
      have hmax : (if v > maxNode then v else maxNode) = max maxNode v := by
        split_ifs <;> omega
      simp only [interfaceFieldLoop, h.1, hmax]
      rw [ih vs _ (le_max_of_le_left hm) h.2]
      simp only [maxOrZero, List.foldr_cons, max_assoc]

theorem maxOrZero_nonneg : ∀ vs : List Int, 0 ≤ maxOrZero vs := by
  intro vs
  induction vs with
  | nil => simp [maxOrZero]
  | cons v vs ih =>
    simp only [maxOrZero, List.foldr_cons]
    exact le_max_of_le_right ih

theorem le_maxOrZero : ∀ (vs : List Int) (v : Int), v ∈ vs → v ≤ maxOrZero vs := by
  intro vs
  induction vs with
  | nil => intro v h; simp at h
  | cons w vs ih =>
    intro v h
    simp only [maxOrZero, List.foldr_cons]
    rcases List.mem_cons.mp h with rfl | h
    · exact le_max_left _ _
    · exact le_max_of_le_right (ih v h)

theorem maxOrZero_mem : ∀ vs : List Int, maxOrZero vs = 0 ∨ maxOrZero vs ∈ vs := by
  intro vs
  induction vs with
  | nil => left; simp [maxOrZero]
  | cons w vs ih =>
    have hfold : maxOrZero (w :: vs) = max w (maxOrZero vs) := by
      simp only [maxOrZero, List.foldr_cons]
    rw [hfold]
    rcases le_total w (maxOrZero vs) with hle | hle
    · rw [max_eq_right hle]
      rcases ih with h | h
      · exact Or.inl h
      · exact Or.inr (List.mem_cons_of_mem _ h)
    · rw [max_eq_left hle]
      exact Or.inr (List.mem_cons_self _ _)

/-! ## A declaration that declines every field -/

theorem interfaceFieldLoop_declines {nw : nodeWalker} (hd : ComplexityDeclines nw)
    (field : String) (args : ArgMap) :
    ∀ ts : List Definition, interfaceFieldLoop nw field 0 args 0 ts = some 0 := by
  intro ts
  induction ts with
  | nil => rfl
  | cons t rest ih =>
    obtain ⟨v, hv⟩ := hd t.Name field 0 args
    simp only [interfaceFieldLoop, fieldNode_of_declined hv]
    exact ih

mutual
theorem selectionSetLoop_declines (nw : nodeWalker) (hd : ComplexityDeclines nw) :
    ∀ (ss : List Selection) (r : Int), selectionSetLoop nw 0 ss = some r → r = 0
  | [], r, h => by
    simp only [selectionSetLoop] at h
    injection h with h
    exact h.symm
  | s :: rest, r, h => by
    simp only [selectionSetLoop] at h
    split at h
    · exact absurd h (by simp)
    · rename_i n hn
      have hn0 : n = 0 := selectionNode_declines nw hd s n hn
      have h00 : safeAdd 0 0 = 0 := by decide
      rw [hn0, h00] at h
      exact selectionSetLoop_declines nw hd rest r h
theorem selectionNode_declines (nw : nodeWalker) (hd : ComplexityDeclines nw) :
    ∀ (s : Selection) (r : Int), selectionNode nw s = some r → r = 0
  | .Field f ss, r, h => by
    simp only [selectionNode] at h
    split at h
    · exact absurd h (by simp)
    · rename_i fieldDefinition _
      split at h
      · exact absurd h (by simp)
      · rename_i childNode hchild
        have hc : childNode = 0 := by
          split at hchild
          · exact selectionSetLoop_declines nw hd ss childNode hchild
          · exact selectionSetLoop_declines nw hd ss childNode hchild
          · exact selectionSetLoop_declines nw hd ss childNode hchild
          · injection hchild with hchild
            exact hchild.symm
        subst hc
        split_ifs at h
        · unfold interfaceFieldNode at h
          rw [interfaceFieldLoop_declines hd] at h
          injection h with h
          exact h.symm
        · obtain ⟨v, hv⟩ := hd f.ObjectDefinition.Name f.Name 0 (ArgumentMap f nw.vars)
          rw [fieldNode_of_declined hv] at h
          injection h with h
          exact h.symm
  | .FragmentSpread _ ss, r, h => by
    simp only [selectionNode] at h
    exact selectionSetLoop_declines nw hd ss r h
  | .InlineFragment _ ss, r, h => by
    simp only [selectionNode] at h
    exact selectionSetLoop_declines nw hd ss r h
end

theorem complexityTotal_of_declines {nw : nodeWalker} (hd : ComplexityDeclines nw) :
    ComplexityTotal nw := by
  intro object field childNode args
  obtain ⟨v, hv⟩ := hd object field childNode args
  exact ⟨_, hv⟩

/-! ## Order and growth of the total -/

theorem safeAdd_swap_aux {node a b : Int} (h0 : 0 ≤ node) (h1 : node ≤ maxInt)
    (ha : InRange a) (hb : InRange b) :
    safeAdd (safeAdd node a) b = safeAdd (safeAdd node b) a := by
  have hna := safeAdd_bounds h0 h1 ha
  have hnb := safeAdd_bounds h0 h1 hb
  rw [safeAdd_of_nonneg hna.1 hna.2 hb, safeAdd_of_nonneg hnb.1 hnb.2 ha,
    safeAdd_of_nonneg h0 h1 ha, safeAdd_of_nonneg h0 h1 hb]
  unfold InRange at ha hb
  rw [maxInt_eq, minInt_eq] at *
  omega

theorem selectionSetLoop_perm (nw : nodeWalker) {s1 s2 : List Selection}
    (h : List.Perm s1 s2) :
    ∀ node : Int, 0 ≤ node → node ≤ maxInt →
      selectionSetLoop nw node s1 = selectionSetLoop nw node s2 := by
  induction h with
  | nil => intro node _ _; rfl
  | cons x _ ih =>
    intro node h0 h1
    simp only [selectionSetLoop]
    cases hx : selectionNode nw x with
    | none => rfl
    | some c =>
      have hb := safeAdd_bounds h0 h1 (selectionNode_inRange nw x c hx)
      exact ih _ hb.1 hb.2
  | swap x y l =>
    intro node h0 h1
    simp only [selectionSetLoop]
    cases hx : selectionNode nw x with
    | none => cases selectionNode nw y <;> rfl
    | some a =>
      cases hy : selectionNode nw y with
      | none => rfl
      | some b =>
        simp only
        rw [safeAdd_swap_aux h0 h1 (selectionNode_inRange nw y b hy)
          (selectionNode_inRange nw x a hx)]
  | trans _ _ ih1 ih2 =>
    intro node h0 h1
    rw [ih1 node h0 h1, ih2 node h0 h1]

theorem safeAdd_mono_left {a a' t : Int} (h0 : 0 ≤ a) (hle : a ≤ a') (h1 : a' ≤ maxInt)
    (ht : InRange t) : safeAdd a t ≤ safeAdd a' t := by
  rw [safeAdd_of_nonneg h0 (hle.trans h1) ht, safeAdd_of_nonneg (h0.trans hle) h1 ht]
  rw [maxInt_eq] at *
  omega

theorem le_safeAdd {a c : Int} (h0 : 0 ≤ a) (h1 : a ≤ maxInt) (hc : InRange c) :
    a ≤ safeAdd a c := by
  rw [safeAdd_of_nonneg h0 h1 hc]
  rw [maxInt_eq] at *
  omega

/-- Starting the loop from a larger total gives a larger outcome, and fails on
the same selection sets. -/
theorem selectionSetLoop_mono (nw : nodeWalker) (q : List Selection) {a a' : Int}
    (h0 : 0 ≤ a) (hle : a ≤ a') (h1 : a' ≤ maxInt) :
    (selectionSetLoop nw a q = none ∧ selectionSetLoop nw a' q = none) ∨
    ∃ r r', selectionSetLoop nw a q = some r ∧ selectionSetLoop nw a' q = some r' ∧
      r ≤ r' := by
  rw [selectionSetLoop_eq_map nw q a h0 (hle.trans h1),
    selectionSetLoop_eq_map nw q a' (h0.trans hle) h1]
  cases ht : selectionSetLoop nw 0 q with
  | none => exact Or.inl ⟨rfl, rfl⟩
  | some t =>
    have hb := selectionSetLoop_bounds nw q 0 t le_rfl (by decide) ht
    exact Or.inr ⟨_, _, rfl, rfl, safeAdd_mono_left h0 hle h1 (inRange_of_bounds hb)⟩

/-! ## Claims -/

/-- C1: whatever the schema, the cost declaration, the variable bindings and
the selection tree, a value returned by `selectionSetNode`, and so by
`Calculate`, lies between `0` and `maxInt`; and when every field's return type
is defined and the cost declaration does not panic, such a value is returned. -/
theorem selectionSetNode_bounds (nw : nodeWalker) (ss : List Selection) :
    (∀ r, selectionSetNode nw ss = some r → 0 ≤ r ∧ r ≤ maxInt) ∧
    (∀ r, Calculate nw ss = some r → 0 ≤ r ∧ r ≤ maxInt) ∧
    (ComplexityTotal nw → typesDefinedSet nw ss = true →
      ∃ r, Calculate nw ss = some r ∧ 0 ≤ r ∧ r ≤ maxInt) := by
  have key : ∀ r, selectionSetNode nw ss = some r → 0 ≤ r ∧ r ≤ maxInt :=
    fun r h => selectionSetLoop_bounds nw ss 0 r le_rfl (by decide) h
  refine ⟨key, key, ?_⟩
  intro hc ht
  obtain ⟨r, hr⟩ := selectionSetLoop_total nw hc ss 0 ht
  exact ⟨r, hr, key r hr⟩

set_option maxRecDepth 100000 in
/-- Witness of C1: the a/b query of the test returns `168`, which is within the
bounds; under a declaration that always answers `childCost - 7`, a value within
the bounds is returned as well. -/
theorem selectionSetNode_bounds_witness :
    (selectionSetNode test.walker [test.queryA, test.queryB] = some 168 ∧
      (0 : Int) ≤ 168 ∧ (168 : Int) ≤ maxInt) ∧
    (Calculate test.walker [test.queryA, test.queryB] = some 168 ∧
      (0 : Int) ≤ 168 ∧ (168 : Int) ≤ maxInt) ∧
    (ComplexityTotal { test.walker with Complexity := fun _ _ c _ => some (c - 7, true) } ∧
      typesDefinedSet { test.walker with Complexity := fun _ _ c _ => some (c - 7, true) }
        [test.queryA, test.queryB] = true ∧
      ∃ r, Calculate { test.walker with Complexity := fun _ _ c _ => some (c - 7, true) }
        [test.queryA, test.queryB] = some r ∧ 0 ≤ r ∧ r ≤ maxInt) :=
  ⟨⟨by decide,
      (selectionSetNode_bounds test.walker [test.queryA, test.queryB]).1 168 (by decide)⟩,
    ⟨by decide,
      (selectionSetNode_bounds test.walker [test.queryA, test.queryB]).2.1 168 (by decide)⟩,
    ⟨fun _ _ c _ => ⟨(c - 7, true), rfl⟩, by decide,
      (selectionSetNode_bounds _ [test.queryA, test.queryB]).2.2
        (fun _ _ c _ => ⟨(c - 7, true), rfl⟩) (by decide)⟩⟩

set_option maxRecDepth 100000 in
/-- C5: sibling selections are summed with the bounded add: the cost of
`s1 ++ s2` is `safeAdd` of the cost of `s1` and the cost of `s2` (and a panic in
either is a panic of the whole); in particular for two siblings `a` and `b`;
the a/b query of the test costs `150 + 18 = 168`. -/
theorem selectionSetNode_siblings (nw : nodeWalker) (s1 s2 : List Selection)
    (a b : Selection) :
    selectionSetNode nw (s1 ++ s2) =
      (selectionSetNode nw s1).bind
        (fun x => (selectionSetNode nw s2).map (fun y => safeAdd x y)) ∧
    selectionSetNode nw [a, b] =
      (selectionSetNode nw [a]).bind
        (fun x => (selectionSetNode nw [b]).map (fun y => safeAdd x y)) ∧
    (test.calculate [test.queryA] = some 150 ∧ test.calculate [test.queryB] = some 18 ∧
      test.calculate [test.queryA, test.queryB] = some 168 ∧ safeAdd 150 18 = 168) :=
  ⟨selectionSetNode_append nw s1 s2, selectionSetNode_append nw [a] [b],
    by decide, by decide, by decide, by decide⟩

/-- C6: replacing a fragment spread by the selection set of its definition, or
an inline fragment by its selection set, at any position of a selection set,
leaves the cost unchanged. -/
theorem selectionSetNode_fragment_splice (nw : nodeWalker) (p body q : List Selection)
    (name typeCondition : String) :
    selectionSetNode nw (p ++ [Selection.FragmentSpread name body] ++ q) =
      selectionSetNode nw (p ++ body ++ q) ∧
    selectionSetNode nw (p ++ [Selection.InlineFragment typeCondition body] ++ q) =
      selectionSetNode nw (p ++ body ++ q) :=
  ⟨selectionSetNode_splice nw _ body (by simp only [selectionNode]) p q,
    selectionSetNode_splice nw _ body (by simp only [selectionNode]) p q⟩

/-- C7, as stated, fails: `safeMultiply (-1) 0` is `0`, not `1`. -/
theorem safeMultiply_neg_nonpos_counterexample :
    (-1 : Int) < 0 ∧ (0 : Int) ≤ 0 ∧ safeMultiply (-1) 0 = 0 ∧ safeMultiply (-1) 0 ≠ 1 := by
  decide

/-- C7, amended: for every `a < 0` and every `b ≤ 0`, `safeMultiply a b` is `0`. -/
theorem safeMultiply_neg_nonpos (a b : Int) (ha : a < 0) (hb : b ≤ 0) :
    safeMultiply a b = 0 := by
  unfold safeMultiply
  have hne : a ≠ 0 := by omega
  simp [hne, ha, hb]

/-- Witness of C7 amended, at `a = -100`, `b = 0` (the negative page size of
the test). -/
theorem safeMultiply_neg_nonpos_witness :
    (-100 : Int) < 0 ∧ (0 : Int) ≤ 0 ∧ safeMultiply (-100) 0 = 0 :=
  ⟨by decide, by decide, safeMultiply_neg_nonpos (-100) 0 (by decide) (by decide)⟩

/-- C8 fails on the code: `safeMultiply` does not clamp the product.  At
`a = 2^30`, `b = 2^34` it returns `0` where the saturated product is `maxInt`,
and at `a = 2^62`, `b = 2` it returns the negative `minInt`. -/
theorem safeMultiply_wraps :
    ((0 : Int) < 1073741824 ∧ (1073741824 : Int) ≤ maxInt) ∧
    ((0 : Int) < 17179869184 ∧ (17179869184 : Int) ≤ maxInt) ∧
    safeMultiply 1073741824 17179869184 = 0 ∧
    min ((1073741824 : Int) * 17179869184) maxInt = maxInt ∧
    safeMultiply 4611686018427387904 2 = minInt ∧ minInt < 0 := by
  decide

/-- C9: for operands between `0` and `maxInt`, `safeAdd a b` is the exact sum
clamped at `maxInt`, and the wrap test `c < a` fires exactly when the exact sum
exceeds `maxInt`. -/
theorem safeAdd_saturates (a b : Int) (ha : 0 ≤ a) (ha' : a ≤ maxInt) (hb : 0 ≤ b)
    (hb' : b ≤ maxInt) :
    safeAdd a b = min (a + b) maxInt ∧ (wrapInt (a + b) < a ↔ maxInt < a + b) := by
  constructor
  · rw [safeAdd_of_nonneg ha ha' (inRange_of_bounds ⟨hb, hb'⟩), max_eq_left hb]
  · rw [wrapInt_eq]
    rw [maxInt_eq] at *
    omega

/-- Witness of C9 at `a = maxInt`, `b = 1`: the sum saturates,
`safeAdd maxInt 1 = maxInt`. -/
theorem safeAdd_saturates_witness :
    (0 : Int) ≤ maxInt ∧ maxInt ≤ maxInt ∧ (0 : Int) ≤ 1 ∧ (1 : Int) ≤ maxInt ∧
    (safeAdd maxInt 1 = min (maxInt + 1) maxInt ∧
      (wrapInt (maxInt + 1) < maxInt ↔ maxInt < maxInt + 1)) ∧
    safeAdd maxInt 1 = maxInt :=
  ⟨by decide, le_rfl, by decide, by decide,
    safeAdd_saturates maxInt 1 (by decide) le_rfl (by decide) (by decide), by decide⟩

set_option maxRecDepth 100000 in
/-- C2 fails on the code: for the chain `list(size: 1073741824) { list(size:
1073741824) { list(size: 16) { scalar } } }` under the test's cost declaration,
the exact product `2^64` exceeds `maxInt`, and `Calculate` returns `0`, not
`maxInt`. -/
theorem calculate_chain_wraps :
    ListChain test.walker [1073741824, 1073741824, 16]
      [test.sizedList "Query" "list" 1073741824
        [test.sizedList "Item" "list" 1073741824
          [test.sizedList "Item" "list" 16 [test.scalarField "Item"]]]] ∧
    maxInt < ([1073741824, 1073741824, 16] : List Int).prod ∧
    test.calculate
      [test.sizedList "Query" "list" 1073741824
        [test.sizedList "Item" "list" 1073741824
          [test.sizedList "Item" "list" 16 [test.scalarField "Item"]]]] = some 0 :=
  ⟨.nested _ _ _ _ (test_listField "Query" "list" _ (Or.inl rfl))
      (.nested _ _ _ _ (test_listField "Item" "list" _ (Or.inr rfl))
        (.innermost _ _ _ (test_listField "Item" "list" _ (Or.inr rfl))
          (test_scalarLeaf "Item" (Or.inr rfl)))),
    by decide, by decide⟩

set_option maxRecDepth 100000 in
/-- C3, as stated, fails when a list field of the chain is selected on an
interface: the query `{ nodes(size: 3) { list(size: 5) { scalar } } }`, whose
inner `list` is selected on the interface `Node`, costs `3`, not `15`, both
when no type implements `Node` (though the declaration returns
`size + childCost` for the list fields on whatever type it is asked about) and
when `Item` implements `Node` and the declaration returns `size + childCost`
for `Query.nodes` and `Node.list`, the types the fields are selected on. -/
theorem calculate_chain_counterexample :
    ((∀ object, DeclaresSize nodes.walkerNotImplemented 3 object (nodes.nodesInfo 3)) ∧
      (∀ object, DeclaresSize nodes.walkerNotImplemented 5 object (nodes.listInfo 5)) ∧
      (∀ s ∈ [test.scalarField "Item"], ScalarLeaf nodes.walkerNotImplemented s) ∧
      (∀ n ∈ ([3, 5] : List Int), 0 < n) ∧ ([3, 5] : List Int).prod = 15 ∧
      (15 : Int) ≤ maxInt ∧
      Calculate nodes.walkerNotImplemented (nodes.chainQuery 3 5) = some 3 ∧
      Calculate nodes.walkerNotImplemented (nodes.chainQuery 3 5) ≠ some 15) ∧
    (DeclaresSize nodes.walkerByWrittenType 3 "Query" (nodes.nodesInfo 3) ∧
      DeclaresSize nodes.walkerByWrittenType 5 "Node" (nodes.listInfo 5) ∧
      (∀ s ∈ [test.scalarField "Item"], ScalarLeaf nodes.walkerByWrittenType s) ∧
      Calculate nodes.walkerByWrittenType (nodes.chainQuery 3 5) = some 3 ∧
      Calculate nodes.walkerByWrittenType (nodes.chainQuery 3 5) ≠ some 15) :=
  ⟨⟨fun _ _ => rfl, fun _ _ => rfl, nodes_scalarLeaf _ rfl (Or.inl rfl), by decide, by decide,
      by decide, by decide, by decide⟩,
    ⟨fun _ => rfl, fun _ => rfl, nodes_scalarLeaf _ rfl (Or.inr rfl), by decide, by decide⟩⟩

/-- C3, amended: for a chain of nested list fields with positive page sizes
whose innermost selection set holds only scalar leaves with no declared cost,
where for each list field the cost declaration returns `size + childCost` on
the type the field is selected on or, when that type is an interface, on each
of its possible types, of which there is at least one, and the exact product
of the sizes does not exceed `maxInt`, `Calculate` returns exactly that
product. -/
theorem calculate_chain (nw : nodeWalker) (sizes : List Int) (ss : List Selection)
    (h : ListChain nw sizes ss) (hpos : ∀ n ∈ sizes, 0 < n) (hprod : sizes.prod ≤ maxInt) :
    Calculate nw ss = some sizes.prod :=
  listChain_cost nw sizes ss h hpos hprod

set_option maxRecDepth 100000 in
/-- Witness of C3 amended: the chain `list(size: 2) { list(size: 5)
{ list(size: 15) { scalar } } }` of the test costs `2 * 5 * 15 = 150`; and
`{ nodes(size: 3) { list(size: 5) { scalar } } }`, whose inner `list` is
selected on the interface `Node` implemented by `Item`, costs `15` when the
declaration returns `size + childCost` for `Item.list`. -/
theorem calculate_chain_witness :
    (ListChain test.walker [2, 5, 15] [test.queryA] ∧
      (∀ n ∈ ([2, 5, 15] : List Int), 0 < n) ∧ ([2, 5, 15] : List Int).prod ≤ maxInt ∧
      Calculate test.walker [test.queryA] = some ([2, 5, 15] : List Int).prod ∧
      ([2, 5, 15] : List Int).prod = 150) ∧
    (ListChain nodes.walkerImplemented [3, 5] (nodes.chainQuery 3 5) ∧
      (∀ n ∈ ([3, 5] : List Int), 0 < n) ∧ ([3, 5] : List Int).prod ≤ maxInt ∧
      Calculate nodes.walkerImplemented (nodes.chainQuery 3 5)
        = some ([3, 5] : List Int).prod ∧
      ([3, 5] : List Int).prod = 15) :=
  have hchain : ListChain test.walker [2, 5, 15] [test.queryA] :=
    .nested _ _ _ _ (test_listField "Query" "a" _ (Or.inl rfl))
      (.nested _ _ _ _ (test_listField "Item" "list" _ (Or.inr rfl))
        (.innermost _ _ _ (test_listField "Item" "list" _ (Or.inr rfl))
          (test_scalarLeaf "Item" (Or.inr rfl))))
  have hnodes : ListChain nodes.walkerImplemented [3, 5] (nodes.chainQuery 3 5) :=
    .nested _ _ _ _ (nodes_nodesField 3)
      (.innermost _ _ _ (nodes_listField 5) (nodes_scalarLeaf _ rfl (Or.inl rfl)))
  ⟨⟨hchain, by decide, by decide,
      calculate_chain test.walker [2, 5, 15] [test.queryA] hchain (by decide) (by decide),
      by decide⟩,
    ⟨hnodes, by decide, by decide,
      calculate_chain nodes.walkerImplemented [3, 5] (nodes.chainQuery 3 5) hnodes
        (by decide) (by decide),
      by decide⟩⟩

set_option maxRecDepth 100000 in
/-- C4, as stated, fails at page size `0`: the query `{ list(size: 0)
{ scalar } }` of the test's schema costs `1`, not `0`. -/
theorem calculate_single_list_counterexample :
    ListField test.walker 0 (test.listInfo "Query" "list" [("size", .IntValue 0)]) ∧
    (∀ s ∈ [test.scalarField "Item"], ScalarLeaf test.walker s) ∧
    (0 : Int) ≥ 0 ∧
    test.calculate [test.sizedList "Query" "list" 0 [test.scalarField "Item"]] = some 1 ∧
    test.calculate [test.sizedList "Query" "list" 0 [test.scalarField "Item"]] ≠ some 0 :=
  ⟨test_listField "Query" "list" 0 (Or.inl rfl), test_scalarLeaf "Item" (Or.inr rfl),
    le_rfl, by decide, by decide⟩

/-- C4, amended: for a single list field of page size `size` whose nested
selection set holds only scalar leaves with no declared cost (fields of
non-composite return type that the declaration declines on the type they are
selected on or, for an interface, on each of its possible types, directly or
inside fragments), where the cost declaration returns `size + childCost` for
the list field on the type it is selected on (for an interface: on each of its
possible types, of which there is at least one), `Calculate` returns `size`
when `size > 0`, `1` when `size = 0`, and `0` when `size < 0`. -/
theorem calculate_single_list (nw : nodeWalker) (size : Int) (f : FieldInfo)
    (ss : List Selection) (hf : ListField nw size f) (hleaf : ∀ s ∈ ss, ScalarLeaf nw s)
    (hsize : InRange size) :
    Calculate nw [.Field f ss] =
      some (if size < 0 then 0 else if size = 0 then 1 else size) := by
  have hm : safeMultiply size 0 = if size < 0 then 0 else if size = 0 then 1 else size := by
    simp only [safeMultiply]
    split_ifs <;> first | rfl | omega
  have hb : 0 ≤ (if size < 0 then 0 else if size = 0 then 1 else size) ∧
      (if size < 0 then 0 else if size = 0 then 1 else size) ≤ maxInt := by
    unfold InRange at hsize
    rw [maxInt_eq, minInt_eq] at *
    split_ifs <;> omega
  have hcost := listField_cost nw size f ss 0 hf hsize (scalarLeaves_cost nw ss hleaf)
    (by rw [hm]; exact hb.1)
  rw [hm] at hcost
  exact selectionSetLoop_single nw _ _ hcost hb.1 hb.2

set_option maxRecDepth 100000 in
/-- Witness of C4 amended: `{ list(size: -100) { scalar } }` of the test costs
`0`, and `{ list(size: 100) { scalar } }` costs `100`; over an interface
element type, `{ nodes(size: 3) { id ... on Node { id } } }` costs `3`. -/
theorem calculate_single_list_witness :
    (ListField test.walker (-100) (test.listInfo "Query" "list" [("size", .IntValue (-100))]) ∧
      (∀ s ∈ [test.scalarField "Item"], ScalarLeaf test.walker s) ∧ InRange (-100) ∧
      Calculate test.walker [test.sizedList "Query" "list" (-100) [test.scalarField "Item"]]
        = some (if (-100 : Int) < 0 then 0 else if (-100 : Int) = 0 then 1 else -100)) ∧
    (ListField test.walker 100 (test.listInfo "Query" "list" [("size", .IntValue 100)]) ∧
      (∀ s ∈ [test.scalarField "Item"], ScalarLeaf test.walker s) ∧ InRange 100 ∧
      Calculate test.walker [test.sizedList "Query" "list" 100 [test.scalarField "Item"]]
        = some (if (100 : Int) < 0 then 0 else if (100 : Int) = 0 then 1 else 100)) ∧
    (ListField nodes.walkerImplemented 3 (nodes.nodesInfo 3) ∧
      (∀ s ∈ [nodes.idField, .InlineFragment "Node" [nodes.idField]],
        ScalarLeaf nodes.walkerImplemented s) ∧ InRange 3 ∧
      Calculate nodes.walkerImplemented (nodes.leafQuery 3)
        = some (if (3 : Int) < 0 then 0 else if (3 : Int) = 0 then 1 else 3) ∧
      Calculate nodes.walkerImplemented (nodes.leafQuery 3) = some 3) :=
  ⟨⟨test_listField "Query" "list" (-100) (Or.inl rfl), test_scalarLeaf "Item" (Or.inr rfl),
      by decide,
      calculate_single_list test.walker (-100) _ _
        (test_listField "Query" "list" (-100) (Or.inl rfl))
        (test_scalarLeaf "Item" (Or.inr rfl)) (by decide)⟩,
    ⟨test_listField "Query" "list" 100 (Or.inl rfl), test_scalarLeaf "Item" (Or.inr rfl),
      by decide,
      calculate_single_list test.walker 100 _ _
        (test_listField "Query" "list" 100 (Or.inl rfl))
        (test_scalarLeaf "Item" (Or.inr rfl)) (by decide)⟩,
    ⟨nodes_nodesField 3, nodes_leaves, by decide,
      calculate_single_list nodes.walkerImplemented 3 (nodes.nodesInfo 3) _
        (nodes_nodesField 3) nodes_leaves (by decide),
      by decide⟩⟩

/-- C10: when no implementor's `fieldNode` panics, with `costs` the values of
`fieldNode` over the possible types of the interface, `interfaceFieldNode`
returns the maximum of `0` and of these values: a value that is at least `0`
and at least every cost, that is `0` or one of the costs, and that is `0` when
the interface has no implementors or no cost is positive. -/
theorem interfaceFieldNode_eq_max (nw : nodeWalker) (definition : Definition) (field : String)
    (childNode : Int) (args : ArgMap) (costs : List Int)
    (h : (nw.PossibleTypes definition.Name).map
      (fun t => fieldNode nw t.Name field childNode args) = costs.map some) :
    interfaceFieldNode nw definition field childNode args = some (maxOrZero costs) ∧
    0 ≤ maxOrZero costs ∧
    (∀ t ∈ nw.PossibleTypes definition.Name, ∀ v,
      fieldNode nw t.Name field childNode args = some v → v ≤ maxOrZero costs) ∧
    (maxOrZero costs = 0 ∨ ∃ t ∈ nw.PossibleTypes definition.Name,
      fieldNode nw t.Name field childNode args = some (maxOrZero costs)) ∧
    (nw.PossibleTypes definition.Name = [] → maxOrZero costs = 0) ∧
    ((∀ v ∈ costs, v ≤ 0) → maxOrZero costs = 0) := by
  have hmem : ∀ v, v ∈ costs ↔
      ∃ t ∈ nw.PossibleTypes definition.Name,
        fieldNode nw t.Name field childNode args = some v := by
    intro v
    have h1 : some v ∈ costs.map some ↔ v ∈ costs := by simp
    rw [← h1, ← h, List.mem_map]
  refine ⟨?_, maxOrZero_nonneg costs, ?_, ?_, ?_, ?_⟩
  · unfold interfaceFieldNode
    rw [interfaceFieldLoop_eq nw field childNode args _ costs 0 le_rfl h,
      max_eq_right (maxOrZero_nonneg costs)]
  · intro t ht v hv
    exact le_maxOrZero costs v ((hmem v).mpr ⟨t, ht, hv⟩)
  · rcases maxOrZero_mem costs with h0 | hm
    · exact Or.inl h0
    · exact Or.inr ((hmem _).mp hm)
  · intro hnil
    rw [hnil] at h
    cases costs with
    | nil => rfl
    | cons v vs => simp at h
  · intro hle
    rcases maxOrZero_mem costs with h0 | hm
    · exact h0
    · exact le_antisymm (hle _ hm) (maxOrZero_nonneg costs)

set_option maxRecDepth 100000 in
/-- Witness of C10: for the field `name` of `NameInterface` in the test, the
implementors `Item` and `ExpensiveItem` cost `0` and `5`, and the interface
field costs `5`. -/
theorem interfaceFieldNode_eq_max_witness :
    (test.walker.PossibleTypes "NameInterface").map
      (fun t => fieldNode test.walker t.Name "name" 0 []) = ([0, 5] : List Int).map some ∧
    interfaceFieldNode test.walker ⟨.Interface, "NameInterface"⟩ "name" 0 [] = some 5 ∧
    maxOrZero [0, 5] = 5 ∧
    selectionSetNode test.walker [test.interfaceNameField] = some 5 :=
  ⟨by decide,
    (interfaceFieldNode_eq_max test.walker ⟨.Interface, "NameInterface"⟩ "name" 0 [] [0, 5]
      (by decide)).1,
    by decide, by decide⟩

/-- C11: if the cost declaration declines every field, any value `Calculate`
returns is `0`, and it returns `0` for every selection tree (fields, fragment
spreads and inline fragments nested to any depth) whose fields have return
types defined in the schema; and a selection set of scalar leaves with no
declared cost costs `0` under any declaration. -/
theorem calculate_declined (nw : nodeWalker) (ss : List Selection) :
    (ComplexityDeclines nw →
      (∀ r, Calculate nw ss = some r → r = 0) ∧
      (typesDefinedSet nw ss = true → Calculate nw ss = some 0)) ∧
    ((∀ s ∈ ss, ScalarLeaf nw s) → Calculate nw ss = some 0) := by
  refine ⟨fun hd => ⟨fun r h => selectionSetLoop_declines nw hd ss r h, fun ht => ?_⟩,
    fun hleaf => scalarLeaves_cost nw ss hleaf⟩
  obtain ⟨r, hr⟩ := selectionSetLoop_total nw (complexityTotal_of_declines hd) ss 0 ht
  have h0 : r = 0 := selectionSetLoop_declines nw hd ss r hr
  rw [h0] at hr
  exact hr

set_option maxRecDepth 100000 in
/-- Witness of C11: under a declaration that declines everything, a tree with
nested lists, a fragment spread and an inline fragment costs `0`; under the
test's declaration the query `{ scalar }` costs `0`. -/
theorem calculate_declined_witness :
    (ComplexityDeclines { test.walker with Complexity := fun _ _ _ _ => some (0, false) } ∧
      typesDefinedSet { test.walker with Complexity := fun _ _ _ _ => some (0, false) }
        [test.queryA, .FragmentSpread "Fragment" [test.queryB, test.interfaceNameField],
          .InlineFragment "Query" [test.scalarField "Query"]] = true ∧
      Calculate { test.walker with Complexity := fun _ _ _ _ => some (0, false) }
        [test.queryA, .FragmentSpread "Fragment" [test.queryB, test.interfaceNameField],
          .InlineFragment "Query" [test.scalarField "Query"]] = some 0) ∧
    ((∀ s ∈ [test.scalarField "Query"], ScalarLeaf test.walker s) ∧
      Calculate test.walker [test.scalarField "Query"] = some 0) :=
  ⟨⟨fun _ _ _ _ => ⟨0, rfl⟩, by decide,
      ((calculate_declined _ _).1 (fun _ _ _ _ => ⟨0, rfl⟩)).2 (by decide)⟩,
    ⟨test_scalarLeaf "Query" (Or.inl rfl),
      (calculate_declined test.walker [test.scalarField "Query"]).2
        (test_scalarLeaf "Query" (Or.inl rfl))⟩⟩

/-- C12: the order of siblings does not affect the total: a permutation of a
selection set has the same `selectionSetNode`, whatever values the cost
declaration yields. -/
theorem selectionSetNode_perm (nw : nodeWalker) (s1 s2 : List Selection)
    (h : List.Perm s1 s2) : selectionSetNode nw s2 = selectionSetNode nw s1 :=
  (selectionSetLoop_perm nw h 0 le_rfl (by decide)).symm

set_option maxRecDepth 100000 in
/-- Witness of C12: the a/b query of the test and the b/a query both cost `168`. -/
theorem selectionSetNode_perm_witness :
    List.Perm [test.queryA, test.queryB] [test.queryB, test.queryA] ∧
    selectionSetNode test.walker [test.queryB, test.queryA] =
      selectionSetNode test.walker [test.queryA, test.queryB] ∧
    selectionSetNode test.walker [test.queryB, test.queryA] = some 168 :=
  ⟨List.Perm.swap _ _ _,
    selectionSetNode_perm test.walker [test.queryA, test.queryB] [test.queryB, test.queryA]
      (List.Perm.swap _ _ _),
    by decide⟩

/-- C13: adding a selection never lowers the cost: when the walk of
`p ++ [x] ++ q` returns `r`, the walk of `p ++ q` returns some `r' ≤ r`; and
when the walk of `p ++ q` returns `r'` and `x` itself is walked without a
panic, the walk of `p ++ [x] ++ q` returns some `r ≥ r'`. -/
theorem selectionSetNode_insert_mono (nw : nodeWalker) (p q : List Selection)
    (x : Selection) :
    (∀ r, selectionSetNode nw (p ++ [x] ++ q) = some r →
      ∃ r', selectionSetNode nw (p ++ q) = some r' ∧ r' ≤ r) ∧
    (∀ r' c, selectionSetNode nw (p ++ q) = some r' → selectionNode nw x = some c →
      ∃ r, selectionSetNode nw (p ++ [x] ++ q) = some r ∧ r' ≤ r) := by
  unfold selectionSetNode
  rw [selectionSetLoop_append nw (p ++ [x]) q, selectionSetLoop_append nw p [x],
    selectionSetLoop_append nw p q]
  cases hp : selectionSetLoop nw 0 p with
  | none =>
    exact ⟨fun r h => absurd h (by simp), fun r' c h _ => absurd h (by simp)⟩
  | some a =>
    have hb := selectionSetLoop_bounds nw p 0 a le_rfl (by decide) hp
    simp only [Option.some_bind, selectionSetLoop]
    cases hx : selectionNode nw x with
    | none =>
      exact ⟨fun r h => absurd h (by simp), fun r' c _ h => absurd h (by simp)⟩
    | some c =>
      have hc := selectionNode_inRange nw x c hx
      have hb' := safeAdd_bounds hb.1 hb.2 hc
      simp only [Option.some_bind]
      rcases selectionSetLoop_mono nw q hb.1 (le_safeAdd hb.1 hb.2 hc) hb'.2 with
        ⟨h1, h2⟩ | ⟨r, r', h1, h2, hle⟩
      · rw [h1, h2]
        exact ⟨fun r h => absurd h (by simp), fun r' c h _ => absurd h (by simp)⟩
      · rw [h1, h2]
        constructor
        · intro r0 h
          injection h with h
          exact ⟨r, rfl, h ▸ hle⟩
        · intro r0 c0 h _
          injection h with h
          exact ⟨r', rfl, h ▸ hle⟩

set_option maxRecDepth 100000 in
/-- Witness of C13: between the a and b selections of the test, a chain with
page sizes `2^30`, `2^30`, `8`, whose product wraps to the negative `minInt`,
changes nothing: the total stays `168`. -/
theorem selectionSetNode_insert_mono_witness :
    selectionNode test.walker
      (test.sizedList "Query" "x" 1073741824
        [test.sizedList "Item" "list" 1073741824
          [test.sizedList "Item" "list" 8 [test.scalarField "Item"]]]) = some minInt ∧
    selectionSetNode test.walker
      ([test.queryA] ++ [test.sizedList "Query" "x" 1073741824
        [test.sizedList "Item" "list" 1073741824
          [test.sizedList "Item" "list" 8 [test.scalarField "Item"]]]] ++ [test.queryB])
      = some 168 ∧
    (∃ r', selectionSetNode test.walker ([test.queryA] ++ [test.queryB]) = some r' ∧
      r' ≤ 168) :=
  ⟨by decide, by decide,
    (selectionSetNode_insert_mono test.walker [test.queryA] [test.queryB]
      (test.sizedList "Query" "x" 1073741824
        [test.sizedList "Item" "list" 1073741824
          [test.sizedList "Item" "list" 8 [test.scalarField "Item"]]])).1 168 (by decide)⟩

/-- C14: when the cost declaration declines a field, `fieldNode` is the child
cost; so a declined field selected on a type that is not an interface
contributes `selectionSetNode` of its nested selection set when its return type
is an Object, Interface or Union, and `0` otherwise; with no nested selection
it contributes `0` in both cases. -/
theorem fieldNode_declined (nw : nodeWalker) (f : FieldInfo) (ss : List Selection)
    (d : Definition) (hi : f.ObjectDefinition.Kind ≠ .Interface)
    (ht : nw.Types f.TypeName = some d) :
    (∀ object field childNode args v,
      nw.Complexity object field childNode args = some (v, false) →
        fieldNode nw object field childNode args = some childNode) ∧
    (d.Kind.isComposite = true → ∀ c v, selectionSetNode nw ss = some c →
      nw.Complexity f.ObjectDefinition.Name f.Name c (ArgumentMap f nw.vars) = some (v, false) →
        selectionNode nw (.Field f ss) = some c) ∧
    (d.Kind.isComposite = false → ∀ v,
      nw.Complexity f.ObjectDefinition.Name f.Name 0 (ArgumentMap f nw.vars) = some (v, false) →
        selectionNode nw (.Field f ss) = some 0) ∧
    (ss = [] → ∀ v,
      nw.Complexity f.ObjectDefinition.Name f.Name 0 (ArgumentMap f nw.vars) = some (v, false) →
        selectionNode nw (.Field f ss) = some 0) := by
  have hcomp : d.Kind.isComposite = true → ∀ c v, selectionSetLoop nw 0 ss = some c →
      nw.Complexity f.ObjectDefinition.Name f.Name c (ArgumentMap f nw.vars) = some (v, false) →
        selectionNode nw (.Field f ss) = some c := by
    intro hk c v hc hv
    simp only [selectionNode, ht, if_neg hi]
    cases hkind : d.Kind <;> rw [hkind] at hk <;>
      first
      | exact absurd hk (by decide)
      | simp only [hc, fieldNode_of_declined hv]
  have hscalar : d.Kind.isComposite = false → ∀ v,
      nw.Complexity f.ObjectDefinition.Name f.Name 0 (ArgumentMap f nw.vars) = some (v, false) →
        selectionNode nw (.Field f ss) = some 0 := by
    intro hk v hv
    simp only [selectionNode, ht, if_neg hi]
    cases hkind : d.Kind <;> rw [hkind] at hk <;>
      first
      | exact absurd hk (by decide)
      | simp only [fieldNode_of_declined hv]
  refine ⟨fun _ _ _ _ _ h => fieldNode_of_declined h, hcomp, hscalar, ?_⟩
  intro hnil v hv
  subst hnil
  cases hk : d.Kind.isComposite
  · exact hscalar hk v hv
  · exact hcomp hk 0 v rfl hv

set_option maxRecDepth 100000 in
/-- Witness of C14: in the test, `object { list(size: 3) { scalar } }` on
`Query` has no declared cost and contributes the `3` of its nested selection
set. -/
theorem fieldNode_declined_witness :
    (⟨.Object, "Query"⟩ : Definition).Kind ≠ .Interface ∧
    test.walker.Types "Item" = some ⟨.Object, "Item"⟩ ∧
    selectionSetNode test.walker [test.sizedList "Item" "list" 3 [test.scalarField "Item"]]
      = some 3 ∧
    selectionNode test.walker
      (.Field
        { Alias := "object", Name := "object", Arguments := [], TypeName := "Item",
          ArgumentDefinitions := [], ObjectDefinition := ⟨.Object, "Query"⟩ }
        [test.sizedList "Item" "list" 3 [test.scalarField "Item"]]) = some 3 :=
  ⟨by decide, rfl, by decide,
    (fieldNode_declined test.walker
      { Alias := "object", Name := "object", Arguments := [], TypeName := "Item",
        ArgumentDefinitions := [], ObjectDefinition := ⟨.Object, "Query"⟩ }
      [test.sizedList "Item" "list" 3 [test.scalarField "Item"]] ⟨.Object, "Item"⟩
      (by decide) rfl).2.1 rfl 3 0 (by decide) (by decide)⟩

/-- C15: when the cost declaration handles a field and returns `v`,
`fieldNode` returns `safeMultiply (v - childNode) childNode`, the subtraction
being the machine one; so when `v` is the machine sum `size + childNode`, even
a wrapped one, `fieldNode` returns `safeMultiply size childNode`. -/
theorem fieldNode_handled (nw : nodeWalker) (object field : String) (childNode v : Int)
    (args : ArgMap) (h : nw.Complexity object field childNode args = some (v, true)) :
    fieldNode nw object field childNode args =
      some (safeMultiply (wrapInt (v - childNode)) childNode) ∧
    (∀ size, InRange size → v = wrapInt (size + childNode) →
      fieldNode nw object field childNode args = some (safeMultiply size childNode)) := by
  have h1 : fieldNode nw object field childNode args =
      some (safeMultiply (wrapInt (v - childNode)) childNode) := by
    simp only [fieldNode, h]
  refine ⟨h1, ?_⟩
  intro size hs hv
  rw [h1, hv, wrapInt_add_sub hs childNode]

set_option maxRecDepth 100000 in
/-- Witness of C15: for `Query.list` of the test with `size = maxInt` and child
cost `5`, the declaration returns the wrapped sum `minInt + 4`, and `fieldNode`
returns `safeMultiply maxInt 5`. -/
theorem fieldNode_handled_witness :
    test.walker.Complexity "Query" "list" 5 [("size", .int64 maxInt)]
      = some (minInt + 4, true) ∧
    InRange maxInt ∧ minInt + 4 = wrapInt (maxInt + 5) ∧
    fieldNode test.walker "Query" "list" 5 [("size", .int64 maxInt)]
      = some (safeMultiply maxInt 5) :=
  ⟨by decide, by decide, by decide,
    (fieldNode_handled test.walker "Query" "list" 5 (minInt + 4) [("size", .int64 maxInt)]
      (by decide)).2 maxInt (by decide) (by decide)⟩

/-- C16: `safeAdd` ignores negative operands: two negative operands give `1`,
and when exactly one operand is negative the other is returned unchanged;
`safeAdd (-5) (-3) = 1` and `safeAdd (-5) 10 = 10`. -/
theorem safeAdd_negative (a b : Int) :
    (a < 0 → b < 0 → safeAdd a b = 1) ∧
    (a < 0 → 0 ≤ b → safeAdd a b = b) ∧
    (0 ≤ a → b < 0 → safeAdd a b = a) ∧
    safeAdd (-5) (-3) = 1 ∧ safeAdd (-5) 10 = 10 := by
  refine ⟨?_, ?_, ?_, by decide, by decide⟩
  · intro ha hb
    simp only [safeAdd, if_pos ha, if_pos hb]
  · intro ha hb
    simp only [safeAdd, if_pos ha, if_neg (not_lt.mpr hb)]
  · intro ha hb
    simp only [safeAdd, if_neg (not_lt.mpr ha), if_pos hb]

/-- Witness of C16 at `(-5, -3)`, `(-5, 10)` and `(10, -5)`. -/
theorem safeAdd_negative_witness :
    safeAdd (-5) (-3) = 1 ∧ safeAdd (-5) 10 = 10 ∧ safeAdd 10 (-5) = 10 :=
  ⟨(safeAdd_negative (-5) (-3)).1 (by decide) (by decide),
    (safeAdd_negative (-5) 10).2.1 (by decide) (by decide),
    (safeAdd_negative 10 (-5)).2.2.1 (by decide) (by decide)⟩

/-- C17: the zero and sign guards of `safeMultiply`: with `a` replaced by `1`
when it is `0`, a negative `a` and a positive `b` give `b`; a positive `a` and
a `b ≤ 0` give `a`; and `a = 0` with a positive `b` gives `b`.  In particular
`safeMultiply 0 7 = 7`, `safeMultiply (-3) 5 = 5`, `safeMultiply 5 (-3) = 5` and
`safeMultiply 5 0 = 5`. -/
theorem safeMultiply_guards (a b : Int) (hb : InRange b) :
    ((if a = 0 then 1 else a) < 0 → 0 < b → safeMultiply a b = b) ∧
    (0 < (if a = 0 then 1 else a) → b ≤ 0 → safeMultiply a b = if a = 0 then 1 else a) ∧
    (a = 0 → 0 < b → safeMultiply a b = b) ∧
    safeMultiply 0 7 = 7 ∧ safeMultiply (-3) 5 = 5 ∧ safeMultiply 5 (-3) = 5 ∧
    safeMultiply 5 0 = 5 := by
  refine ⟨?_, ?_, ?_, by decide, by decide, by decide, by decide⟩
  · intro ha hpos
    simp only [safeMultiply, if_pos ha, if_neg (not_le.mpr hpos)]
  · intro ha hle
    simp only [safeMultiply, if_neg (not_lt.mpr ha.le), if_pos hle]
  · intro ha hpos
    subst ha
    simp only [safeMultiply, if_true, one_mul, if_neg (not_le.mpr hpos)]
    rw [if_neg (by decide)]
    exact wrapInt_of_inRange hb

/-- Witness of C17 at `(-3, 5)`, `(5, -3)`, `(5, 0)` and `(0, 7)`. -/
theorem safeMultiply_guards_witness :
    safeMultiply (-3) 5 = 5 ∧ safeMultiply 5 (-3) = 5 ∧ safeMultiply 5 0 = 5 ∧
    safeMultiply 0 7 = 7 :=
  ⟨(safeMultiply_guards (-3) 5 (by decide)).1 (by decide) (by decide),
    (safeMultiply_guards 5 (-3) (by decide)).2.1 (by decide) (by decide),
    (safeMultiply_guards 5 0 (by decide)).2.1 (by decide) (by decide),
    (safeMultiply_guards 0 7 (by decide)).2.2.1 rfl (by decide)⟩

/-- C18: a negative page size does not inflate the total: when the cost
declaration handles a list field and returns `size + childNode` with
`size < 0`, `fieldNode` is `childNode` when `childNode > 0` and `0` when
`childNode = 0`; in both cases at most `childNode`. -/
theorem fieldNode_negative_size (nw : nodeWalker) (object field : String)
    (childNode size : Int) (args : ArgMap) (hneg : size < 0) (hsize : InRange size)
    (hchild : 0 ≤ childNode)
    (h : nw.Complexity object field childNode args = some (wrapInt (size + childNode), true)) :
    (0 < childNode → fieldNode nw object field childNode args = some childNode) ∧
    (childNode = 0 → fieldNode nw object field childNode args = some 0) ∧
    (∃ r, fieldNode nw object field childNode args = some r ∧ r ≤ childNode) := by
  have h1 : fieldNode nw object field childNode args = some (safeMultiply size childNode) := by
    simp only [fieldNode, h, wrapInt_add_sub hsize childNode]
  have hne : size ≠ 0 := by omega
  have hpos : 0 < childNode → safeMultiply size childNode = childNode := by
    intro hc
    simp only [safeMultiply, if_neg hne, if_pos hneg, if_neg (not_le.mpr hc)]
  have hzero : childNode = 0 → safeMultiply size childNode = 0 := by
    intro hc
    simp only [safeMultiply, if_neg hne, if_pos hneg, if_pos hc.le]
  refine ⟨fun hc => by rw [h1, hpos hc], fun hc => by rw [h1, hzero hc], ?_⟩
  rcases hchild.lt_or_eq with hc | hc
  · exact ⟨childNode, by rw [h1, hpos hc], le_rfl⟩
  · exact ⟨0, by rw [h1, hzero hc.symm], hchild⟩

set_option maxRecDepth 100000 in
/-- Witness of C18: `Query.list` of the test with `size = -100` contributes `0`
over scalar children (child cost `0`) and `7` over a child cost of `7`; the
query `{ list(size: -100) { scalar } }` costs `0`. -/
theorem fieldNode_negative_size_witness :
    (fieldNode test.walker "Query" "list" 0 [("size", .int64 (-100))] = some 0) ∧
    (fieldNode test.walker "Query" "list" 7 [("size", .int64 (-100))] = some 7) ∧
    test.calculate [test.sizedList "Query" "list" (-100) [test.scalarField "Item"]] = some 0 :=
  ⟨(fieldNode_negative_size test.walker "Query" "list" 0 (-100) [("size", .int64 (-100))]
      (by decide) (by decide) (by decide) (by decide)).2.1 rfl,
    (fieldNode_negative_size test.walker "Query" "list" 7 (-100) [("size", .int64 (-100))]
      (by decide) (by decide) (by decide) (by decide)).1 (by decide),
    by decide⟩

/-- C19: the walker is total on well-formed input: it is defined by structural
recursion on the selection tree, and when every field's return type is defined
in the schema and the cost declaration itself does not panic,
`selectionSetNode`, and so `Calculate`, returns an integer (within
`[0, maxInt]`); the failed schema lookup is the walker's only error branch, and
it is reached when a walked field's return type is undefined. -/
theorem selectionSetNode_total (nw : nodeWalker) (ss : List Selection)
    (hc : ComplexityTotal nw) (ht : typesDefinedSet nw ss = true) :
    (∃ r, selectionSetNode nw ss = some r ∧ Calculate nw ss = some r ∧
      0 ≤ r ∧ r ≤ maxInt) ∧
    (∀ f body rest, nw.Types f.TypeName = none →
      selectionSetNode nw (.Field f body :: rest) = none) := by
  constructor
  · obtain ⟨r, hr⟩ := selectionSetLoop_total nw hc ss 0 ht
    exact ⟨r, hr, hr, selectionSetLoop_bounds nw ss 0 r le_rfl (by decide) hr⟩
  · intro f body rest hnone
    simp only [selectionSetNode, selectionSetLoop, selectionNode, hnone]

set_option maxRecDepth 100000 in
/-- Witness of C19: with the test's schema and a declaration that always
answers `childCost + 3`, a tree with nested lists, an interface field, a
fragment spread and an inline fragment is walked to an integer. -/
theorem selectionSetNode_total_witness :
    ComplexityTotal { test.walker with Complexity := fun _ _ c _ => some (c + 3, true) } ∧
    typesDefinedSet { test.walker with Complexity := fun _ _ c _ => some (c + 3, true) }
      [test.queryA, .FragmentSpread "Fragment" [test.queryB, test.interfaceNameField],
        .InlineFragment "Query" [test.scalarField "Query"]] = true ∧
    (∃ r, selectionSetNode { test.walker with Complexity := fun _ _ c _ => some (c + 3, true) }
        [test.queryA, .FragmentSpread "Fragment" [test.queryB, test.interfaceNameField],
          .InlineFragment "Query" [test.scalarField "Query"]] = some r ∧
      Calculate { test.walker with Complexity := fun _ _ c _ => some (c + 3, true) }
        [test.queryA, .FragmentSpread "Fragment" [test.queryB, test.interfaceNameField],
          .InlineFragment "Query" [test.scalarField "Query"]] = some r ∧
      0 ≤ r ∧ r ≤ maxInt) :=
  ⟨fun _ _ c _ => ⟨(c + 3, true), rfl⟩, by decide,
    (selectionSetNode_total _ _ (fun _ _ c _ => ⟨(c + 3, true), rfl⟩) (by decide)).1⟩

/-- C20: a handled field with a non-negative multiplier never contributes `0`:
for `a ≥ 0` and `b ≤ 0`, `safeMultiply a b = max a 1 ≥ 1`; so a field whose
cost declaration returns `a` with `0 ≤ a ≤ maxInt` while its child cost is `0`
contributes `max a 1`. -/
theorem safeMultiply_nonneg_nonpos (a b : Int) (ha : 0 ≤ a) (hb : b ≤ 0) :
    safeMultiply a b = max a 1 ∧ 1 ≤ safeMultiply a b ∧
    (∀ (nw : nodeWalker) (object field : String) (args : ArgMap), a ≤ maxInt →
      nw.Complexity object field 0 args = some (a, true) →
        fieldNode nw object field 0 args = some (max a 1)) := by
  have key : ∀ b' : Int, b' ≤ 0 → safeMultiply a b' = max a 1 := by
    intro b' hb'
    simp only [safeMultiply]
    split_ifs <;> omega
  refine ⟨key b hb, ?_, ?_⟩
  · rw [key b hb]
    exact le_max_right _ _
  · intro nw object field args hmax h
    simp only [fieldNode, h, sub_zero]
    rw [wrapInt_of_inRange (inRange_of_bounds ⟨ha, hmax⟩), key 0 le_rfl]

set_option maxRecDepth 100000 in
/-- Witness of C20: `safeMultiply 0 0 = 1`; in the test, `Query.list` with
`size = 0` over scalar children (the declaration returns `0`) contributes `1`,
and the query `{ list(size: 0) { scalar } }` costs `1`. -/
theorem safeMultiply_nonneg_nonpos_witness :
    safeMultiply 0 0 = max 0 1 ∧ safeMultiply 0 0 = 1 ∧
    test.walker.Complexity "Query" "list" 0 [("size", .int64 0)] = some (0, true) ∧
    fieldNode test.walker "Query" "list" 0 [("size", .int64 0)] = some (max 0 1) ∧
    test.calculate [test.sizedList "Query" "list" 0 [test.scalarField "Item"]] = some 1 :=
  ⟨(safeMultiply_nonneg_nonpos 0 0 le_rfl le_rfl).1, by decide, by decide,
    (safeMultiply_nonneg_nonpos 0 0 le_rfl le_rfl).2.2 test.walker "Query" "list"
      [("size", .int64 0)] (by decide) (by decide),
    by decide⟩

end node
